import Mathlib

/-!
Verification development for the `FluidSolver` core of the tsiolkovsky
repository (src/services/fluidSolver.ts): a 2D compressible Euler solver
using a Roe approximate Riemann flux with dimensional splitting.

Modelling conventions (shallow embedding of the TypeScript source):
* JavaScript numbers are modelled by `FVal`: an exact rational together
  with the special values +Infinity, -Infinity and NaN.  Arithmetic on
  the special values follows IEEE-754/JS semantics (NaN propagation,
  0 * inf = NaN, x / 0 = signed infinity for x different from 0,
  0 / 0 = NaN, Math.max/Math.min propagate NaN, comparisons with NaN are
  false).  Rounding of finite results and overflow to infinity are
  abstracted away: finite arithmetic is exact.  The negative zero of
  IEEE-754 is not modelled (the solver never branches on it).
* `Math.sqrt` and `Math.log` return irrational numbers on most inputs;
  they are modelled by computable rational approximations (`ratSqrt`,
  `ratLog`) with the exact IEEE special-value behaviour.  No property
  proved below depends on the approximation error of these two
  functions, only on their sign and finiteness, which they share with
  the exact functions.
* The `Float32Array` buffers `Q` and `Q_new` are modelled as
  `List FVal` of length `nx * ny * 4`, read with `rd` (out-of-range
  reads never occur in the source for well-formed sizes) and written
  with `wr` (`List.set`).
-/

/-- Fueled Heron iteration for natural square roots; structurally
recursive so that it reduces inside the kernel. -/
def heron (n : Nat) : Nat → Nat → Nat
  | 0, x => x
  | fuel + 1, x =>
    let xn := (x + n / x) / 2
    if xn < x then heron n fuel xn else x

/-- Computable integer square root used by the rational approximation of
`Math.sqrt`. -/
def isqrt (n : Nat) : Nat :=
  heron n 1000 (max 1 n)

/-- Rational approximation of `Math.sqrt` on nonnegative rationals. -/
def ratSqrt (q : ℚ) : ℚ :=
  (isqrt (q.num.toNat * q.den * 1000000) : ℚ) / ((q.den : ℚ) * 1000)

/-- Rational approximation of `Math.log` on positive rationals
(truncated artanh series). -/
def ratLog (q : ℚ) : ℚ :=
  let y := (q - 1) / (q + 1)
  2 * (y + y ^ 3 / 3 + y ^ 5 / 5 + y ^ 7 / 7)

/-- Model of a JavaScript number: an exact rational or one of the
special values +Infinity, -Infinity, NaN. -/
inductive FVal where
  | fin (q : ℚ)
  | inf
  | ninf
  | nan
deriving DecidableEq

namespace FVal

/-- Shorthand embedding of a rational as a finite JS number. -/
def fv (q : ℚ) : FVal := FVal.fin q

/-- The JS `isNaN` test. -/
def isNaN : FVal → Bool
  | nan => true
  | _ => false

/-- The JS `isFinite` test. -/
def isFinite : FVal → Bool
  | fin _ => true
  | _ => false

/-- Strict order on non-NaN values (-Infinity below all finite values,
+Infinity above). Comparisons involving NaN are false, as in JS. -/
def ltV : FVal → FVal → Bool
  | fin a, fin b => decide (a < b)
  | fin _, inf => true
  | ninf, fin _ => true
  | ninf, inf => true
  | _, _ => false

/-- The JS strict `<` comparison (false whenever NaN is involved). -/
def jlt (a b : FVal) : Bool := ltV a b

/-- The JS strict `>` comparison. -/
def jgt (a b : FVal) : Bool := ltV b a

/-- JS addition. -/
def add : FVal → FVal → FVal
  | nan, _ => nan
  | _, nan => nan
  | inf, ninf => nan
  | ninf, inf => nan
  | inf, _ => inf
  | _, inf => inf
  | ninf, _ => ninf
  | _, ninf => ninf
  | fin a, fin b => fin (a + b)

/-- JS negation. -/
def neg : FVal → FVal
  | fin a => fin (-a)
  | inf => ninf
  | ninf => inf
  | nan => nan

/-- JS subtraction. -/
def sub (a b : FVal) : FVal := add a (neg b)

/-- JS multiplication (0 * Infinity = NaN). -/
def mul : FVal → FVal → FVal
  | nan, _ => nan
  | _, nan => nan
  | fin a, fin b => fin (a * b)
  | inf, inf => inf
  | inf, ninf => ninf
  | ninf, inf => ninf
  | ninf, ninf => inf
  | inf, fin b => if 0 < b then inf else if b < 0 then ninf else nan
  | fin a, inf => if 0 < a then inf else if a < 0 then ninf else nan
  | ninf, fin b => if 0 < b then ninf else if b < 0 then inf else nan
  | fin a, ninf => if 0 < a then ninf else if a < 0 then inf else nan

/-- JS division (x / 0 is a signed infinity for nonzero finite x,
0 / 0 = NaN, finite / infinite = 0, infinite / infinite = NaN). -/
def div : FVal → FVal → FVal
  | nan, _ => nan
  | _, nan => nan
  | fin a, fin b =>
    if b = 0 then (if 0 < a then inf else if a < 0 then ninf else nan)
    else fin (a / b)
  | fin _, inf => fin 0
  | fin _, ninf => fin 0
  | inf, fin b => if 0 ≤ b then inf else ninf
  | ninf, fin b => if 0 ≤ b then ninf else inf
  | _, _ => nan

/-- The JS `Math.max` (NaN-propagating). -/
def fmax : FVal → FVal → FVal
  | nan, _ => nan
  | _, nan => nan
  | a, b => if ltV a b then b else a

/-- The JS `Math.min` (NaN-propagating). -/
def fmin : FVal → FVal → FVal
  | nan, _ => nan
  | _, nan => nan
  | a, b => if ltV b a then b else a

/-- The JS `Math.abs`. -/
def fabs : FVal → FVal
  | fin a => fin |a|
  | inf => inf
  | ninf => inf
  | nan => nan

/-- The JS `Math.sqrt`: NaN on negative inputs, +Infinity at +Infinity,
a rational approximation on nonnegative finite inputs. -/
def sqrtF : FVal → FVal
  | fin q => if q < 0 then nan else fin (ratSqrt q)
  | inf => inf
  | ninf => nan
  | nan => nan

/-- The JS `Math.log`: NaN on negative inputs, -Infinity at 0,
+Infinity at +Infinity, a rational approximation on positive finite
inputs. -/
def logF : FVal → FVal
  | fin q => if 0 < q then fin (ratLog q) else if q = 0 then ninf else nan
  | inf => inf
  | ninf => nan
  | nan => nan

instance : Add FVal := ⟨FVal.add⟩
instance : Sub FVal := ⟨FVal.sub⟩
instance : Mul FVal := ⟨FVal.mul⟩
instance : Div FVal := ⟨FVal.div⟩
instance : Neg FVal := ⟨FVal.neg⟩

theorem add_def (a b : FVal) : a + b = FVal.add a b := rfl

theorem sub_def (a b : FVal) : a - b = FVal.sub a b := rfl

theorem mul_def (a b : FVal) : a * b = FVal.mul a b := rfl

theorem div_def (a b : FVal) : a / b = FVal.div a b := rfl

end FVal

open FVal (fv)

set_option maxRecDepth 200000

example : FVal.fin 1 + FVal.fin 2 = FVal.fin 3 := by with_unfolding_all decide

example : FVal.inf * FVal.fin 0 = FVal.nan := by with_unfolding_all decide

example : FVal.fin 1 / FVal.fin 0 = FVal.inf := by with_unfolding_all decide

example : FVal.fmax (fv 10) FVal.nan = FVal.nan := by with_unfolding_all decide

example : FVal.sqrtF (fv 1) = fv 1 := by with_unfolding_all decide

/-! ## The solver data model (mirrors `class FluidSolver`) -/

/-- A cached primitive boundary state `{rho, u, v, p, E}`. -/
structure BState where
  rho : FVal
  u : FVal
  v : FVal
  p : FVal
  E : FVal
deriving DecidableEq

/-- The solver state: grid dimensions, cell sizes, the two conservative
buffers `Q` and `Q_new`, the simulation clock `t`, and the two cached
boundary states. -/
structure Solver where
  nx : Nat
  ny : Nat
  dx : FVal
  dy : FVal
  Q : List FVal
  Qnew : List FVal
  t : FVal
  inletState : BState
  ambientState : BState
deriving DecidableEq

/-- Read of a buffer cell component (`this.Q[i]`). In-range for all
accesses performed by the source on well-formed buffers. -/
def rd (Q : List FVal) (i : Nat) : FVal := Q.getD i (fv 0)

/-- Write of a buffer cell component (`this.Q[i] = v`). -/
def wr (Q : List FVal) (i : Nat) (v : FVal) : List FVal := Q.set i v

/-- PHYSICS_CONSTANTS.GAMMA. -/
def GAMMA : FVal := fv 1.4

/-- PHYSICS_CONSTANTS.R. -/
def Rgas : FVal := fv 287.05

/-- Model of `Math.pow(x, 3.5)` (the only use of `Math.pow` in the
source has exponent `gamma / (gamma - 1) = 3.5`): `x^3 * sqrt(x)`,
which agrees with the real power function on positive arguments. -/
def pow35 (x : FVal) : FVal := x * x * x * FVal.sqrtF x

/-- The constructor `new FluidSolver(nx, ny)`: allocates zero-filled
buffers, sets the grid geometry, and caches the default inlet and
ambient states.  Note that the constructor does NOT write the ambient
state into `Q` (no call to `initializeField`), and that the cached `E`
fields are literal zeros. -/
def construct (nx ny : Nat) : Solver :=
  let dx := fv 0.9 / fv (nx : ℚ)
  { nx := nx
    ny := ny
    dx := dx
    dy := dx
    Q := List.replicate (nx * ny * 4) (fv 0)
    Qnew := List.replicate (nx * ny * 4) (fv 0)
    t := fv 0
    inletState := ⟨fv 1.2, fv 0, fv 0, fv 101325, fv 0⟩
    ambientState := ⟨fv 1.225, fv 0, fv 0, fv 101325, fv 0⟩ }

/-- `getPressure(rho, rhou, rhov, rhoE)`: robust pressure with the
`max(1e-4, rho)` density guard and the `max(10, p)` clamp. -/
def getPressure (rho rhou rhov rhoE : FVal) : FVal :=
  let safeRho := FVal.fmax (fv 0.0001) rho
  let kinE := fv 0.5 * (rhou * rhou + rhov * rhov) / safeRho
  let p := (GAMMA - fv 1) * (rhoE - kinE)
  FVal.fmax (fv 10) p

/-- `computeEnergy(rho, u, v, p)`. -/
def computeEnergy (rho u v p : FVal) : FVal :=
  p / (GAMMA - fv 1) + fv 0.5 * rho * (u * u + v * v)

/-- `updateBoundaryConditions(pt, tt, mach, pAmb)`: recompute the two
cached boundary states from isentropic flow relations.  No validation
is performed on the inputs. -/
def updateBoundaryConditions (s : Solver) (pt tt mach pamb : FVal) : Solver :=
  let tStatic := tt / (fv 1 + (GAMMA - fv 1) * fv 0.5 * mach * mach)
  let pStatic := pt / pow35 (fv 1 + (GAMMA - fv 1) * fv 0.5 * mach * mach)
  let rhoStatic := pStatic / (Rgas * tStatic)
  let c := FVal.sqrtF (GAMMA * Rgas * tStatic)
  let uStatic := mach * c
  let tAmb := fv 300
  let rhoAmb := pamb / (Rgas * tAmb)
  { s with
    inletState :=
      ⟨rhoStatic, uStatic, fv 0, pStatic,
        computeEnergy rhoStatic uStatic (fv 0) pStatic⟩
    ambientState :=
      ⟨rhoAmb, fv 0, fv 0, pamb, computeEnergy rhoAmb (fv 0) (fv 0) pamb⟩ }

/-- Steps 3-10 of the Roe flux: rotation to the face frame, Roe
averaging, Harten-fixed wave speeds, wave amplitudes, dissipation,
physical flux average and rotation back, from the already-extracted
left/right primitives. -/
def roeCore (rL uLraw vLraw pL hL rR uRraw vRraw pR hR nxv nyv : FVal) :
    List FVal :=
  let eps := fv 0.000000001
  let uL := uLraw * nxv + vLraw * nyv
  let vL := -(uLraw * nyv) + vLraw * nxv
  let uR := uRraw * nxv + vRraw * nyv
  let vR := -(uRraw * nyv) + vRraw * nxv
  let sL := FVal.sqrtF rL
  let sR := FVal.sqrtF rR
  let i_d := fv 1 / (sL + sR + eps)
  let u := (sL * uL + sR * uR) * i_d
  let v := (sL * vL + sR * vR) * i_d
  let h := (sL * hL + sR * hR) * i_d
  let q2 := u * u + v * v
  let c2 := (GAMMA - fv 1) * (h - fv 0.5 * q2)
  let c := FVal.sqrtF (FVal.fmax (fv 50) c2)
  let l1 := FVal.fabs (u - c)
  let l2 := FVal.fabs u
  let l3 := FVal.fabs u
  let l4 := FVal.fabs (u + c)
  let delta := fv 0.25 * (FVal.fabs u + c)
  let fix := fun l => if FVal.jlt l delta then (l * l + delta * delta) / (fv 2 * delta) else l
  let L1 := fix l1
  let L2 := fix l2
  let L3 := fix l3
  let L4 := fix l4
  let dr := rR - rL
  let du := uR - uL
  let dv := vR - vL
  let dp := pR - pL
  let rhoRoe := sL * sR
  let alpha1 := (dp - rhoRoe * c * du) / (fv 2 * c * c)
  let alpha2 := dr - dp / (c * c)
  let alpha3 := rhoRoe * dv
  let alpha4 := (dp + rhoRoe * c * du) / (fv 2 * c * c)
  let d0 := L1 * alpha1 + L2 * alpha2 + L4 * alpha4
  let d1 := L1 * alpha1 * (u - c) + L2 * alpha2 * u + L4 * alpha4 * (u + c)
  let d2 := L1 * alpha1 * v + L2 * alpha2 * v + L3 * alpha3 + L4 * alpha4 * v
  let d3 := L1 * alpha1 * (h - u * c) + L2 * alpha2 * (fv 0.5 * q2) + L3 * alpha3 * v
    + L4 * alpha4 * (h + u * c)
  let fl0 := rL * uL
  let fl1 := rL * uL * uL + pL
  let fl2 := rL * uL * vL
  let fl3 := rL * uL * hL
  let fr0 := rR * uR
  let fr1 := rR * uR * uR + pR
  let fr2 := rR * uR * vR
  let fr3 := rR * uR * hR
  let fn0 := fv 0.5 * (fl0 + fr0) - fv 0.5 * d0
  let fn1 := fv 0.5 * (fl1 + fr1) - fv 0.5 * d1
  let fn2 := fv 0.5 * (fl2 + fr2) - fv 0.5 * d2
  let fn3 := fv 0.5 * (fl3 + fr3) - fv 0.5 * d3
  [fn0, fn1 * nxv - fn2 * nyv, fn1 * nyv + fn2 * nxv, fn3]

/-- The Roe flux across one face (`roeFlux1D(idxL, idxR, nx, ny)`),
reading the committed buffer `Q`; returns the four conservative flux
components in the global frame. -/
def roeFlux1D (Q : List FVal) (idxL idxR : Nat) (nxv nyv : FVal) : List FVal :=
  let rL := FVal.fmax (fv 0.000001) (rd Q idxL)
  let uLraw := rd Q (idxL + 1) / rL
  let vLraw := rd Q (idxL + 2) / rL
  let pL := getPressure rL (rd Q (idxL + 1)) (rd Q (idxL + 2)) (rd Q (idxL + 3))
  let hL := (rd Q (idxL + 3) + pL) / rL
  let rR := FVal.fmax (fv 0.000001) (rd Q idxR)
  let uRraw := rd Q (idxR + 1) / rR
  let vRraw := rd Q (idxR + 2) / rR
  let pR := getPressure rR (rd Q (idxR + 1)) (rd Q (idxR + 2)) (rd Q (idxR + 3))
  let hR := (rd Q (idxR + 3) + pR) / rR
  if pL.isNaN || pR.isNaN then [fv 0, fv 0, fv 0, fv 0]
  else roeCore rL uLraw vLraw pL hL rR uRraw vRraw pR hR nxv nyv

/-- One face application inside a sweep: subtract `(dt/h) * flux` from
the left cell of `Q_new` and add the same four values to the right
cell.  `Q` is the committed buffer the fluxes are computed from. -/
def faceUpdate (Q qn : List FVal) (idxL idxR : Nat) (nxv nyv rdth : FVal) :
    List FVal :=
  let flux := roeFlux1D Q idxL idxR nxv nyv
  let qn := wr qn idxL (rd qn idxL - rdth * rd flux 0)
  let qn := wr qn (idxL + 1) (rd qn (idxL + 1) - rdth * rd flux 1)
  let qn := wr qn (idxL + 2) (rd qn (idxL + 2) - rdth * rd flux 2)
  let qn := wr qn (idxL + 3) (rd qn (idxL + 3) - rdth * rd flux 3)
  let qn := wr qn idxR (rd qn idxR + rdth * rd flux 0)
  let qn := wr qn (idxR + 1) (rd qn (idxR + 1) + rdth * rd flux 1)
  let qn := wr qn (idxR + 2) (rd qn (idxR + 2) + rdth * rd flux 2)
  wr qn (idxR + 3) (rd qn (idxR + 3) + rdth * rd flux 3)

/-- The ordered list of `(idxL, idxR)` face index pairs traversed by
`computeFluxes` (outer loop `j`, inner loop `i`). -/
def sweepFaces (snx : Nat) (outer inner : Nat) (isX : Bool) : List (Nat × Nat) :=
  (List.range outer).flatMap fun j =>
    (List.range (inner - 1)).map fun i =>
      if isX then ((j * snx + i) * 4, (j * snx + i + 1) * 4)
      else ((i * snx + j) * 4, ((i + 1) * snx + j) * 4)

/-- `computeFluxes(dt, h, dirX, dirY)`: the X-sweep (`dirX = 1`) seeds
`Q_new` from `Q`; the Y-sweep accumulates into the existing `Q_new`.
Fluxes are always computed from the committed buffer `Q`. -/
def computeFluxes (s : Solver) (dt h : FVal) (dirX dirY : Nat) : Solver :=
  let isX := dirX = 1
  let qn0 := if isX then s.Q else s.Qnew
  let outer := if isX then s.ny else s.nx
  let inner := if isX then s.nx else s.ny
  let rdth := dt / h
  let qn := (sweepFaces s.nx outer inner isX).foldl
    (fun q pr => faceUpdate s.Q q pr.1 pr.2 (fv (dirX : ℚ)) (fv (dirY : ℚ)) rdth)
    qn0
  { s with Qnew := qn }

/-- `calculateTimeStep(cfl)`: CFL-limited time step with the speed
floor `10` and the hard cap `5e-5`. -/
def calculateTimeStep (s : Solver) (cfl : FVal) : FVal :=
  let maxSpeed := (List.range (s.nx * s.ny)).foldl
    (fun ms i =>
      let idx := i * 4
      let r := FVal.fmax (fv 0.000001) (rd s.Q idx)
      let invR := fv 1 / r
      let u := rd s.Q (idx + 1) * invR
      let v := rd s.Q (idx + 2) * invR
      let p := getPressure r (rd s.Q (idx + 1)) (rd s.Q (idx + 2)) (rd s.Q (idx + 3))
      let c := FVal.sqrtF (GAMMA * p * invR)
      let speed := FVal.sqrtF (u * u + v * v) + c
      if FVal.jgt speed ms then speed else ms)
    (fv 0)
  let maxSpeed := FVal.fmax (fv 10) maxSpeed
  let calculatedDt := cfl * FVal.fmin s.dx s.dy / maxSpeed
  FVal.fmin calculatedDt (fv 0.00005)

/-- One row of the inlet loop of `applyBoundaryConditions`: the
aperture rows receive the inlet state, the others the reflective slip
wall copied from column `i = 1`. -/
def inletCell (s : Solver) (centerY radius : Nat) (q : List FVal) (j : Nat) :
    List FVal :=
  let idx := (j * s.nx) * 4
  if ((j : Int) - (centerY : Int)).natAbs ≤ radius then
    let q := wr q idx s.inletState.rho
    let q := wr q (idx + 1) (s.inletState.rho * s.inletState.u)
    let q := wr q (idx + 2) (s.inletState.rho * s.inletState.v)
    wr q (idx + 3) s.inletState.E
  else
    let q := wr q idx (rd q (idx + 4))
    let q := wr q (idx + 1) (fv 0)
    let q := wr q (idx + 2) (rd q (idx + 4 + 2))
    let rho := rd q idx
    let p := getPressure (rd q (idx + 4)) (rd q (idx + 4 + 1))
      (rd q (idx + 4 + 2)) (rd q (idx + 4 + 3))
    wr q (idx + 3) (computeEnergy rho (fv 0) (rd q (idx + 2) / rho) p)

/-- One row of the outlet loop: zero-gradient copy of column
`nx - 2` into column `nx - 1`. -/
def outletCell (s : Solver) (q : List FVal) (j : Nat) : List FVal :=
  let idxOut := (j * s.nx + s.nx - 1) * 4
  let idxIn := (j * s.nx + s.nx - 2) * 4
  let q := wr q idxOut (rd q idxIn)
  let q := wr q (idxOut + 1) (rd q (idxIn + 1))
  let q := wr q (idxOut + 2) (rd q (idxIn + 2))
  wr q (idxOut + 3) (rd q (idxIn + 3))

/-- One column of the far-field loop: hard-set the bottom and top rows
to the ambient state. -/
def farFieldCell (s : Solver) (q : List FVal) (i : Nat) : List FVal :=
  let idxBot := i * 4
  let idxTop := ((s.ny - 1) * s.nx + i) * 4
  let q := wr q idxBot s.ambientState.rho
  let q := wr q (idxBot + 1) (fv 0)
  let q := wr q (idxBot + 2) (fv 0)
  let q := wr q (idxBot + 3) s.ambientState.E
  let q := wr q idxTop s.ambientState.rho
  let q := wr q (idxTop + 1) (fv 0)
  let q := wr q (idxTop + 2) (fv 0)
  wr q (idxTop + 3) s.ambientState.E

/-- `applyBoundaryConditions()`: inlet/slip-wall on the left column,
zero-gradient outlet on the right column, ambient far field on the top
and bottom rows; all writes go to `Q_new`. -/
def applyBoundaryConditions (s : Solver) : Solver :=
  let centerY := s.ny / 2
  let radius := s.ny / 8
  let qn1 := (List.range s.ny).foldl (inletCell s centerY radius) s.Qnew
  let qn2 := (List.range s.ny).foldl (outletCell s) qn1
  let qn3 := (List.range s.nx).foldl (farFieldCell s) qn2
  { s with Qnew := qn3 }

/-- The per-cell loop of `fixPositivityAndCheckStability`: scans the
given cell indices in order, applying the density and pressure floors
in place and aborting with `false` at the first non-finite density or
energy, or NaN velocity. -/
def fixCellsLoop : List Nat → List FVal → Bool × List FVal
  | [], q => (true, q)
  | i :: rest, q =>
    let idx := i * 4
    let r := rd q idx
    let e := rd q (idx + 3)
    if r.isNaN || !r.isFinite then (false, q)
    else if e.isNaN || !e.isFinite then (false, q)
    else
      let rq : FVal × List FVal :=
        if FVal.jlt r (fv 0.05) then
          (fv 0.05, wr (wr (wr q idx (fv 0.05)) (idx + 1) (fv 0)) (idx + 2) (fv 0))
        else (r, q)
      let r := rq.1
      let q := rq.2
      let u := rd q (idx + 1) / r
      let v := rd q (idx + 2) / r
      if u.isNaN || v.isNaN then (false, q)
      else
        let kinE := fv 0.5 * r * (u * u + v * v)
        let p := (GAMMA - fv 1) * (e - kinE)
        let q :=
          if p.isNaN || FVal.jlt p (fv 100) then
            wr q (idx + 3) (fv 100 / (GAMMA - fv 1) + kinE)
          else q
        fixCellsLoop rest q

/-- `fixPositivityAndCheckStability()`: returns the stability flag and
the solver with the repaired `Q_new` (repairs made before an abort are
kept, as in the source). -/
def fixPositivityAndCheckStability (s : Solver) : Bool × Solver :=
  let r := fixCellsLoop (List.range (s.nx * s.ny)) s.Qnew
  (r.1, { s with Qnew := r.2 })

/-- One iteration of the `initializeField` fill loop: write the four
conservative components of cell `i`. -/
def initCellWrite (a b c d : FVal) (q : List FVal) (i : Nat) : List FVal :=
  let idx := i * 4
  wr (wr (wr (wr q idx a) (idx + 1) b) (idx + 2) c) (idx + 3) d

/-- `initializeField()`: fill every cell of `Q` with the cached ambient
conservative state, then imprint boundary conditions (which write to
`Q_new`, not `Q`, exactly as the source does). -/
def initializeField (s : Solver) : Solver :=
  let q := (List.range (s.nx * s.ny)).foldl
    (initCellWrite s.ambientState.rho (s.ambientState.rho * s.ambientState.u)
      (s.ambientState.rho * s.ambientState.v) s.ambientState.E)
    s.Q
  applyBoundaryConditions { s with Q := q }

/-- `reset()`: zero the simulation clock and reinitialize the field. -/
def reset (s : Solver) : Solver :=
  initializeField { s with t := fv 0 }

/-- The first part of `step(cfl)`: advance `t`, run both sweeps and the
boundary imprint; stops right before the stability check. -/
def stepPipeline (s : Solver) (cfl : FVal) : Solver :=
  let dt := calculateTimeStep s cfl
  let s1 : Solver := { s with t := s.t + dt }
  let s2 := computeFluxes s1 dt s1.dx 1 0
  let s3 := computeFluxes s2 dt s2.dy 0 1
  applyBoundaryConditions s3

/-- The stability flag produced by `step(cfl)`. -/
def stepStable (s : Solver) (cfl : FVal) : Bool :=
  (fixPositivityAndCheckStability (stepPipeline s cfl)).1

/-- `step(cfl)`: pipeline, stability check, then either commit
(`Q ← Q_new`) or reset to ambient. -/
def step (s : Solver) (cfl : FVal) : Solver :=
  let s4 := stepPipeline s cfl
  let r := fixPositivityAndCheckStability s4
  if r.1 then { r.2 with Q := r.2.Qnew } else reset r.2

/-- Number.MAX_VALUE. -/
def maxVALUE : ℚ := 2 ^ 1024 - 2 ^ 971

/-- The per-cell scalar value of `getScalarField(mode)` at flat cell
index `i` (the `val` computed by the loop body; unknown modes leave it
at its default `0`). -/
def gsCell (s : Solver) (mode : String) (i : Nat) : FVal :=
  let idx := i * 4
  let rho := rd s.Q idx
  let u := rd s.Q (idx + 1) / (rho + fv 0.000000001)
  let v := rd s.Q (idx + 2) / (rho + fv 0.000000001)
  let e := rd s.Q (idx + 3)
  let p := getPressure rho (rd s.Q (idx + 1)) (rd s.Q (idx + 2)) e
  if mode = "density" then rho
  else if mode = "pressure" then p
  else if mode = "velocity" then FVal.sqrtF (u * u + v * v)
  else if mode = "temperature" then p / (rho * Rgas)
  else if mode = "mach" then
    let c := FVal.sqrtF (GAMMA * p / (rho + fv 0.000000001))
    FVal.sqrtF (u * u + v * v) / (c + fv 0.000000001)
  else if mode = "schlieren" then
    let col := i % s.nx
    let row := i / s.nx
    let drdx :=
      if 0 < col ∧ col < s.nx - 1 then
        (rd s.Q (idx + 4) - rd s.Q (idx - 4)) / (fv 2 * s.dx)
      else fv 0
    let drdy :=
      if 0 < row ∧ row < s.ny - 1 then
        (rd s.Q (((row + 1) * s.nx + col) * 4) - rd s.Q (((row - 1) * s.nx + col) * 4))
          / (fv 2 * s.dy)
      else fv 0
    let g := FVal.sqrtF (drdx * drdx + drdy * drdy)
    FVal.logF (fv 1 + fv 10 * g)
  else fv 0

/-- The loop body of `getScalarField`: append the cell value and update
the running `min`/`max` with the source's strict comparisons. -/
def gsBody (g : Nat → FVal) (acc : List FVal × FVal × FVal) (i : Nat) :
    List FVal × FVal × FVal :=
  let val := g i
  let mn := if FVal.jlt val acc.2.1 then val else acc.2.1
  let mx := if FVal.jgt val acc.2.2 then val else acc.2.2
  (acc.1 ++ [val], mn, mx)

/-- `getScalarField(mode)`: the scalar projection of `Q` plus observed
extrema (`min` starting at `Number.MAX_VALUE`, `max` at its negation).
The view only reads `Q`; the solver record is not part of the result. -/
def getScalarField (s : Solver) (mode : String) :
    List FVal × FVal × FVal :=
  (List.range (s.nx * s.ny)).foldl (gsBody (gsCell s mode))
    ([], fv maxVALUE, fv (-maxVALUE))

/-! ## Basic buffer lemmas -/

theorem getD_replicate_self (a : FVal) : ∀ (n j : Nat), (List.replicate n a).getD j a = a
  | 0, _ => rfl
  | _ + 1, 0 => rfl
  | n + 1, j + 1 => getD_replicate_self a n j

theorem rd_wr_eq (q : List FVal) (i : Nat) (v : FVal) (h : i < q.length) :
    rd (wr q i v) i = v := by
  unfold rd wr
  rw [List.getD_eq_getElem?_getD, List.getElem?_set_self (by simpa using h)]
  rfl

theorem rd_wr_ne (q : List FVal) (i j : Nat) (v : FVal) (h : i ≠ j) :
    rd (wr q i v) j = rd q j := by
  unfold rd wr
  rw [List.getD_eq_getElem?_getD, List.getElem?_set_ne h, ← List.getD_eq_getElem?_getD]

theorem wr_length (q : List FVal) (i : Nat) (v : FVal) :
    (wr q i v).length = q.length := by
  simp [wr]

/-! ## Claim C3 -/

/-- Claim C3 (counterexample): immediately after `construct`, the cells
of `Q` do NOT hold the ambient conservative state: the constructor
allocates zero-filled buffers and never calls `initializeField`, so the
density of cell `(0,0)` is `0`, not `1.225`.  (`t = 0` does hold.) -/
theorem spec_C3_counterexample :
    (construct 300 150).t = fv 0 ∧ rd (construct 300 150).Q 0 = fv 0 ∧
      (fv 0 : FVal) ≠ fv 1.225 := by
  refine ⟨rfl, ?_, by with_unfolding_all decide⟩
  show (List.replicate (300 * 150 * 4) (fv 0)).getD 0 (fv 0) = fv 0
  exact getD_replicate_self _ _ _

/-- Claim C3 (amended): immediately after `construct(nx, ny)`, `t = 0`
and every component of every cell of `Q` is `0` (the buffers are
allocated zero-filled and the ambient state is not written into `Q`
until `reset()` runs). -/
theorem spec_C3 (nx ny j : Nat) :
    (construct nx ny).t = fv 0 ∧ rd (construct nx ny).Q j = fv 0 :=
  ⟨rfl, getD_replicate_self _ _ _⟩

/-! ## Claim C4 -/

/-- Claim C4 (counterexample): no argument validation exists.
`construct` accepts `nx = 1 < 4`, and `updateBoundaryConditions` with
the non-positive total temperature `T_total = 0` does not fail: it
overwrites `inletState` (the cached inlet density becomes +Infinity and
the cached inlet energy NaN), so state IS mutated on invalid input. -/
theorem spec_C4_counterexample :
    (construct 1 1).nx = 1 ∧
      (updateBoundaryConditions (construct 4 4) (fv 101325) (fv 0) (fv 0)
          (fv 101325)).inletState.rho = FVal.inf ∧
      (construct 4 4).inletState.rho = fv 1.2 := by
  refine ⟨rfl, ?_, rfl⟩
  with_unfolding_all decide

/-- Claim C4 (amended): neither entry point validates its arguments or
can fail.  `updateBoundaryConditions` recomputes the two cached states
unconditionally for every input (possibly producing non-finite
cached values), but it never touches `Q`, the tentative buffer, the
clock, or the grid dimensions; `construct` accepts any dimensions. -/
theorem spec_C4 (s : Solver) (pt tt mach pamb : FVal) (nx ny : Nat) :
    (updateBoundaryConditions s pt tt mach pamb).Q = s.Q ∧
      (updateBoundaryConditions s pt tt mach pamb).Qnew = s.Qnew ∧
      (updateBoundaryConditions s pt tt mach pamb).t = s.t ∧
      (updateBoundaryConditions s pt tt mach pamb).nx = s.nx ∧
      (updateBoundaryConditions s pt tt mach pamb).ny = s.ny ∧
      (construct nx ny).nx = nx ∧ (construct nx ny).ny = ny :=
  ⟨rfl, rfl, rfl, rfl, rfl, rfl, rfl⟩

/-! ## Claim C5 -/

/-- Claim C5 (amended): the kernel's degenerate-face guard tests
`isNaN` only: if the left or right static pressure (as computed by
`getPressure` on the density-floored state) is NaN, `roeFlux1D`
returns the zero flux.  (An infinite pressure does NOT trigger the
guard; see the counterexample.) -/
theorem spec_C5 (Q : List FVal) (idxL idxR : Nat) (nxv nyv : FVal)
    (h : (getPressure (FVal.fmax (fv 0.000001) (rd Q idxL)) (rd Q (idxL + 1))
          (rd Q (idxL + 2)) (rd Q (idxL + 3))).isNaN = true ∨
        (getPressure (FVal.fmax (fv 0.000001) (rd Q idxR)) (rd Q (idxR + 1))
          (rd Q (idxR + 2)) (rd Q (idxR + 3))).isNaN = true) :
    roeFlux1D Q idxL idxR nxv nyv = [fv 0, fv 0, fv 0, fv 0] := by
  unfold roeFlux1D
  rcases h with h | h <;> simp [h]

/-- Concrete two-cell buffer whose left cell has NaN energy (hence NaN
pressure). -/
def qNanCell : List FVal := [fv 1, fv 0, fv 0, FVal.nan, fv 1, fv 0, fv 0, fv 2.5]

/-- Claim C5 (witness): on a concrete face whose left pressure is NaN,
the kernel returns the zero flux. -/
theorem spec_C5_witness :
    (getPressure (FVal.fmax (fv 0.000001) (rd qNanCell 0)) (rd qNanCell 1)
        (rd qNanCell 2) (rd qNanCell 3)).isNaN = true ∧
      roeFlux1D qNanCell 0 4 (fv 1) (fv 0) = [fv 0, fv 0, fv 0, fv 0] :=
  ⟨by with_unfolding_all decide,
    spec_C5 qNanCell 0 4 (fv 1) (fv 0) (Or.inl (by with_unfolding_all decide))⟩

/-- Concrete two-cell buffer whose left cell has +Infinity energy: the
left pressure is +Infinity (non-finite), yet the kernel does NOT
return the zero flux. -/
def qInfCell : List FVal := [fv 1, fv 1, fv 0, FVal.inf, fv 1, fv 0, fv 0, fv 2.5]

/-- Claim C5 (counterexample): a non-finite (here +Infinity) left
pressure does not produce the zero flux — the guard only catches NaN,
so the claim as stated (any non-finite pressure gives zero flux) is
false. -/
theorem spec_C5_counterexample :
    (getPressure (FVal.fmax (fv 0.000001) (rd qInfCell 0)) (rd qInfCell 1)
        (rd qInfCell 2) (rd qInfCell 3)).isFinite = false ∧
      roeFlux1D qInfCell 0 4 (fv 1) (fv 0) ≠ [fv 0, fv 0, fv 0, fv 0] := by
  constructor
  · with_unfolding_all decide
  · with_unfolding_all decide

/-! ## Claim C8 -/

/-- Claim C8: every interior-face application of either sweep is
conservative.  `computeFluxes` is by definition the fold of
`faceUpdate` over the faces of the sweep; for disjoint in-range cell
index blocks, `faceUpdate` subtracts `(dt/h) * flux` componentwise from
the left cell of the tentative buffer and adds exactly the same four
values to the right cell. -/
theorem spec_C8 (Q qn : List FVal) (idxL idxR : Nat) (nxv nyv rdth : FVal)
    (hLR : idxL + 3 < idxR) (hlen : idxR + 3 < qn.length) :
    rd (faceUpdate Q qn idxL idxR nxv nyv rdth) idxL
        = rd qn idxL - rdth * rd (roeFlux1D Q idxL idxR nxv nyv) 0 ∧
      rd (faceUpdate Q qn idxL idxR nxv nyv rdth) (idxL + 1)
        = rd qn (idxL + 1) - rdth * rd (roeFlux1D Q idxL idxR nxv nyv) 1 ∧
      rd (faceUpdate Q qn idxL idxR nxv nyv rdth) (idxL + 2)
        = rd qn (idxL + 2) - rdth * rd (roeFlux1D Q idxL idxR nxv nyv) 2 ∧
      rd (faceUpdate Q qn idxL idxR nxv nyv rdth) (idxL + 3)
        = rd qn (idxL + 3) - rdth * rd (roeFlux1D Q idxL idxR nxv nyv) 3 ∧
      rd (faceUpdate Q qn idxL idxR nxv nyv rdth) idxR
        = rd qn idxR + rdth * rd (roeFlux1D Q idxL idxR nxv nyv) 0 ∧
      rd (faceUpdate Q qn idxL idxR nxv nyv rdth) (idxR + 1)
        = rd qn (idxR + 1) + rdth * rd (roeFlux1D Q idxL idxR nxv nyv) 1 ∧
      rd (faceUpdate Q qn idxL idxR nxv nyv rdth) (idxR + 2)
        = rd qn (idxR + 2) + rdth * rd (roeFlux1D Q idxL idxR nxv nyv) 2 ∧
      rd (faceUpdate Q qn idxL idxR nxv nyv rdth) (idxR + 3)
        = rd qn (idxR + 3) + rdth * rd (roeFlux1D Q idxL idxR nxv nyv) 3 := by
  refine ⟨?_, ?_, ?_, ?_, ?_, ?_, ?_, ?_⟩ <;>
    simp (disch := first | (simp only [wr_length]; omega) | omega) only
      [faceUpdate, rd_wr_ne, rd_wr_eq]

/-- Concrete tentative buffer for the C8 witness. -/
def qnC8 : List FVal := [fv 1, fv 2, fv 3, fv 4, fv 5, fv 6, fv 7, fv 8]

/-- Claim C8 (witness): the conservativity equalities at a concrete
face between two concrete cells. -/
theorem spec_C8_witness :
    (0 + 3 < 4 ∧ 4 + 3 < qnC8.length) ∧
      (rd (faceUpdate qNanCell qnC8 0 4 (fv 1) (fv 0) (fv 2)) 0
          = rd qnC8 0 - fv 2 * rd (roeFlux1D qNanCell 0 4 (fv 1) (fv 0)) 0 ∧
        rd (faceUpdate qNanCell qnC8 0 4 (fv 1) (fv 0) (fv 2)) (0 + 1)
          = rd qnC8 (0 + 1) - fv 2 * rd (roeFlux1D qNanCell 0 4 (fv 1) (fv 0)) 1 ∧
        rd (faceUpdate qNanCell qnC8 0 4 (fv 1) (fv 0) (fv 2)) (0 + 2)
          = rd qnC8 (0 + 2) - fv 2 * rd (roeFlux1D qNanCell 0 4 (fv 1) (fv 0)) 2 ∧
        rd (faceUpdate qNanCell qnC8 0 4 (fv 1) (fv 0) (fv 2)) (0 + 3)
          = rd qnC8 (0 + 3) - fv 2 * rd (roeFlux1D qNanCell 0 4 (fv 1) (fv 0)) 3 ∧
        rd (faceUpdate qNanCell qnC8 0 4 (fv 1) (fv 0) (fv 2)) 4
          = rd qnC8 4 + fv 2 * rd (roeFlux1D qNanCell 0 4 (fv 1) (fv 0)) 0 ∧
        rd (faceUpdate qNanCell qnC8 0 4 (fv 1) (fv 0) (fv 2)) (4 + 1)
          = rd qnC8 (4 + 1) + fv 2 * rd (roeFlux1D qNanCell 0 4 (fv 1) (fv 0)) 1 ∧
        rd (faceUpdate qNanCell qnC8 0 4 (fv 1) (fv 0) (fv 2)) (4 + 2)
          = rd qnC8 (4 + 2) + fv 2 * rd (roeFlux1D qNanCell 0 4 (fv 1) (fv 0)) 2 ∧
        rd (faceUpdate qNanCell qnC8 0 4 (fv 1) (fv 0) (fv 2)) (4 + 3)
          = rd qnC8 (4 + 3) + fv 2 * rd (roeFlux1D qNanCell 0 4 (fv 1) (fv 0)) 3) :=
  ⟨⟨by decide, by decide⟩, spec_C8 qNanCell qnC8 0 4 (fv 1) (fv 0) (fv 2)
    (by decide) (by decide)⟩

/-! ## Claim C10 -/

/-- Fold lemma for `getScalarField`: if every cell value is `0`, the
loop appends zeros and each `min`/`max` accumulator is updated once by
the source's strict comparisons and then left unchanged. -/
theorem gs_fold_zero (g : Nat → FVal) (hz : ∀ i, g i = fv 0) :
    ∀ (l : List Nat) (data : List FVal) (mn mx : FVal),
      l.foldl (gsBody g) (data, mn, mx)
        = (data ++ List.replicate l.length (fv 0),
            if l.length = 0 then mn
            else if FVal.jlt (fv 0) mn then fv 0 else mn,
            if l.length = 0 then mx
            else if FVal.jgt (fv 0) mx then fv 0 else mx)
  | [], data, mn, mx => by simp
  | i :: l, data, mn, mx => by
    have hjlt : FVal.jlt (fv 0) (fv 0) = false := by with_unfolding_all decide
    have hjgt : FVal.jgt (fv 0) (fv 0) = false := by with_unfolding_all decide
    have hbody : gsBody g (data, mn, mx) i
        = (data ++ [fv 0], if FVal.jlt (fv 0) mn then fv 0 else mn,
            if FVal.jgt (fv 0) mx then fv 0 else mx) := by
      simp only [gsBody, hz i]
    rw [List.foldl_cons, hbody,
      gs_fold_zero g hz l (data ++ [fv 0]) (if FVal.jlt (fv 0) mn then fv 0 else mn)
        (if FVal.jgt (fv 0) mx then fv 0 else mx)]
    refine congrArg₂ _ ?_ (congrArg₂ _ ?_ ?_)
    · simp [List.replicate_succ]
    · rcases Nat.eq_zero_or_pos l.length with h | h
      · simp [h]
      · have hne : l.length ≠ 0 := by omega
        by_cases hmn : FVal.jlt (fv 0) mn = true
        · simp [hne, hmn, hjlt]
        · simp [hne, Bool.eq_false_iff.mpr hmn, hjlt]
    · rcases Nat.eq_zero_or_pos l.length with h | h
      · simp [h]
      · have hne : l.length ≠ 0 := by omega
        by_cases hmx : FVal.jgt (fv 0) mx = true
        · simp [hne, hmx, hjgt]
        · simp [hne, Bool.eq_false_iff.mpr hmx, hjgt]

/-- Claim C10: for any solver with at least one cell and any mode
outside the six supported ones, `getScalarField` succeeds and returns
an all-zero array of length `nx * ny` with observed minimum and maximum
both `0` (the view reads `Q` only and, being a pure function of the
solver, leaves `Q`, the tentative buffer and `t` untouched). -/
theorem spec_C10 (s : Solver) (mode : String)
    (hm : mode ∉ ["density", "pressure", "velocity", "temperature", "mach", "schlieren"])
    (hn : 1 ≤ s.nx * s.ny) :
    getScalarField s mode = (List.replicate (s.nx * s.ny) (fv 0), fv 0, fv 0) := by
  have hz : ∀ i, gsCell s mode i = fv 0 := by
    intro i
    simp only [List.mem_cons, not_or] at hm
    obtain ⟨h1, h2, h3, h4, h5, h6, _⟩ := hm
    simp [gsCell, h1, h2, h3, h4, h5, h6]
  have hq : (0 : ℚ) < 2 ^ 1024 - 2 ^ 971 := by
    have h2 : (2 : ℚ) ^ 971 < 2 ^ 1024 :=
      pow_lt_pow_right₀ one_lt_two (by omega)
    linarith
  have hmn : FVal.jlt (fv 0) (fv maxVALUE) = true := by
    simp [FVal.jlt, FVal.ltV, fv, maxVALUE, hq]
  have hmx : FVal.jgt (fv 0) (fv (-maxVALUE)) = true := by
    simp [FVal.jgt, FVal.ltV, fv, maxVALUE]
    linarith
  unfold getScalarField
  rw [gs_fold_zero (gsCell s mode) hz (List.range (s.nx * s.ny)) []
    (fv maxVALUE) (fv (-maxVALUE))]
  have hne : ¬((List.range (s.nx * s.ny)).length = 0) := by
    simp only [List.length_range]
    omega
  rw [if_neg hne, if_neg hne, hmn, hmx, if_pos rfl, if_pos rfl]
  simp [List.length_range]

/-- Claim C10 (witness): a one-cell solver queried with the unsupported
mode string returns a single zero with extrema `0`. -/
theorem spec_C10_witness :
    ("vorticity" ∉ ["density", "pressure", "velocity", "temperature", "mach",
        "schlieren"] ∧ 1 ≤ (construct 1 1).nx * (construct 1 1).ny) ∧
      getScalarField (construct 1 1) "vorticity"
        = (List.replicate ((construct 1 1).nx * (construct 1 1).ny) (fv 0), fv 0, fv 0) :=
  ⟨⟨by decide, by decide⟩, spec_C10 (construct 1 1) "vorticity" (by decide) (by decide)⟩

/-! ## Claim C1 -/

theorem initFill_length (a b c d : FVal) :
    ∀ (l : List Nat) (q : List FVal),
      (l.foldl (initCellWrite a b c d) q).length = q.length
  | [], _ => rfl
  | i :: l, q => by
    rw [List.foldl_cons, initFill_length a b c d l]
    simp [initCellWrite, wr_length]

/-- Cell values written by the `initializeField` fill loop: every cell
index below the loop bound holds the four given components. -/
theorem initFill_rd (a b c d : FVal) :
    ∀ (m : Nat) (q : List FVal) (i : Nat), i < m → i * 4 + 3 < q.length →
      rd ((List.range m).foldl (initCellWrite a b c d) q) (i * 4) = a ∧
        rd ((List.range m).foldl (initCellWrite a b c d) q) (i * 4 + 1) = b ∧
        rd ((List.range m).foldl (initCellWrite a b c d) q) (i * 4 + 2) = c ∧
        rd ((List.range m).foldl (initCellWrite a b c d) q) (i * 4 + 3) = d := by
  intro m
  induction m with
  | zero => intro q i hi; omega
  | succ m ih =>
    intro q i hi hlen
    rw [List.range_succ, List.foldl_append, List.foldl_cons, List.foldl_nil]
    rcases Nat.lt_or_ge i m with him | him
    · have h := ih q i him hlen
      refine ⟨?_, ?_, ?_, ?_⟩ <;>
        · simp (disch := omega) only [initCellWrite, rd_wr_ne]
          tauto
    · have hieq : i = m := by omega
      subst hieq
      have hflen : ((List.range i).foldl (initCellWrite a b c d) q).length = q.length :=
        initFill_length a b c d (List.range i) q
      refine ⟨?_, ?_, ?_, ?_⟩ <;>
        simp (disch := first | (simp only [wr_length, hflen]; omega) | omega) only
          [initCellWrite, rd_wr_ne, rd_wr_eq]

/-- Claim C1 (amended): when the stability check of a `step(cfl)` call
fails, `Q` is reinitialized to the cached ambient conservative state,
but the simulation clock is NOT preserved: `reset()` also sets
`t` to `0`, discarding the value advanced at the start of the step. -/
theorem spec_C1 (s : Solver) (cfl : FVal) (i : Nat)
    (h : stepStable s cfl = false) (hlen : s.Q.length = s.nx * s.ny * 4)
    (hi : i < s.nx * s.ny) :
    (step s cfl).t = fv 0 ∧
      rd (step s cfl).Q (i * 4) = s.ambientState.rho ∧
      rd (step s cfl).Q (i * 4 + 1) = s.ambientState.rho * s.ambientState.u ∧
      rd (step s cfl).Q (i * 4 + 2) = s.ambientState.rho * s.ambientState.v ∧
      rd (step s cfl).Q (i * 4 + 3) = s.ambientState.E := by
  have h2 : (fixPositivityAndCheckStability (stepPipeline s cfl)).1 = false := h
  have hstep : step s cfl
      = reset (fixPositivityAndCheckStability (stepPipeline s cfl)).2 := by
    simp only [step, h2]
    simp
  have hQ : (step s cfl).Q = (List.range (s.nx * s.ny)).foldl
      (initCellWrite s.ambientState.rho (s.ambientState.rho * s.ambientState.u)
        (s.ambientState.rho * s.ambientState.v) s.ambientState.E) s.Q := by
    rw [hstep]
    rfl
  obtain ⟨e0, e1, e2, e3⟩ := initFill_rd s.ambientState.rho
    (s.ambientState.rho * s.ambientState.u) (s.ambientState.rho * s.ambientState.v)
    s.ambientState.E (s.nx * s.ny) s.Q i hi (by omega)
  refine ⟨?_, ?_, ?_, ?_, ?_⟩
  · rw [hstep]; rfl
  · rw [hQ]; exact e0
  · rw [hQ]; exact e1
  · rw [hQ]; exact e2
  · rw [hQ]; exact e3

/-- A uniform concrete 3-by-3 field cell `(1, 0, 0, 2.5)`. -/
def cellOne : List FVal := [fv 1, fv 0, fv 0, fv 2.5]

/-- Nine copies of `cellOne`, flattened into a 3-by-3 buffer. -/
def qNine : List FVal := (List.replicate 9 cellOne).flatten

/-- A concrete solver whose interior cell `(1,1)` has NaN density, so
the next `step` hits the divergence branch. -/
def sDiverge : Solver :=
  { construct 3 3 with
    Q := wr qNine 16 FVal.nan
    t := fv 1
    ambientState := ⟨fv 1, fv 0, fv 0, fv 10, fv 2.5⟩ }

/-- Claim C1 (witness): the divergence branch of a concrete `step`
reinitializes a concrete cell of `Q` to ambient and zeroes `t`. -/
theorem spec_C1_witness :
    (stepStable sDiverge (fv 0.5) = false ∧
        sDiverge.Q.length = sDiverge.nx * sDiverge.ny * 4 ∧
        4 < sDiverge.nx * sDiverge.ny) ∧
      ((step sDiverge (fv 0.5)).t = fv 0 ∧
        rd (step sDiverge (fv 0.5)).Q (4 * 4) = sDiverge.ambientState.rho ∧
        rd (step sDiverge (fv 0.5)).Q (4 * 4 + 1)
          = sDiverge.ambientState.rho * sDiverge.ambientState.u ∧
        rd (step sDiverge (fv 0.5)).Q (4 * 4 + 2)
          = sDiverge.ambientState.rho * sDiverge.ambientState.v ∧
        rd (step sDiverge (fv 0.5)).Q (4 * 4 + 3) = sDiverge.ambientState.E) :=
  ⟨⟨by with_unfolding_all decide, by with_unfolding_all decide, by decide⟩,
    spec_C1 sDiverge (fv 0.5) 4 (by with_unfolding_all decide)
      (by with_unfolding_all decide) (by decide)⟩

/-- Claim C1 (counterexample): in the concrete diverging step, the
stability check fails and the clock is reset to `0`; it does NOT keep
the advanced value `t + dt` claimed by the specification (here
`t + dt = 1 + dt` with `t = 1`). -/
theorem spec_C1_counterexample :
    stepStable sDiverge (fv 0.5) = false ∧
      (step sDiverge (fv 0.5)).t = fv 0 ∧
      (step sDiverge (fv 0.5)).t
        ≠ sDiverge.t + calculateTimeStep sDiverge (fv 0.5) := by
  refine ⟨?_, ?_, ?_⟩ <;> with_unfolding_all decide

/-! ## Square-root approximation facts and constructor-level
arithmetic lemmas -/

theorem heron_ge_one (n : Nat) (hn : 1 ≤ n) :
    ∀ (fuel x : Nat), 1 ≤ x → 1 ≤ heron n fuel x
  | 0, _, hx => hx
  | fuel + 1, x, hx => by
    simp only [heron]
    split
    · refine heron_ge_one n hn fuel _ ?_
      have h2 : 2 ≤ x + n / x := by
        rcases le_or_lt x n with hxn | hnx
        · have : 1 ≤ n / x := (Nat.one_le_div_iff (by omega)).mpr hxn
          omega
        · have h2x : 2 ≤ x := by omega
          exact le_trans h2x (Nat.le_add_right x (n / x))
      calc 1 = 2 / 2 := rfl
        _ ≤ (x + n / x) / 2 := Nat.div_le_div_right h2
    · exact hx

theorem isqrt_ge_one (n : Nat) (hn : 1 ≤ n) : 1 ≤ isqrt n :=
  heron_ge_one n hn 1000 (max 1 n) (le_max_left 1 n)

theorem ratSqrt_nonneg (q : ℚ) : 0 ≤ ratSqrt q := by
  unfold ratSqrt
  have hd : (0 : ℚ) < (q.den : ℚ) * 1000 := by
    have := q.den_pos
    positivity
  positivity

theorem ratSqrt_pos (q : ℚ) (h : 0 < q) : 0 < ratSqrt q := by
  unfold ratSqrt
  have hnum : 1 ≤ q.num.toNat * q.den * 1000000 := by
    have h1 : 1 ≤ q.num.toNat := by
      have := (Rat.num_pos).mpr h
      omega
    have h2 : 1 ≤ q.den := q.pos
    calc 1 = 1 * 1 * 1 := rfl
      _ ≤ q.num.toNat * q.den * 1000000 :=
        Nat.mul_le_mul (Nat.mul_le_mul h1 h2) (by omega)
  have h1 : (1 : ℚ) ≤ (isqrt (q.num.toNat * q.den * 1000000) : ℚ) := by
    exact_mod_cast isqrt_ge_one _ hnum
  have hd : (0 : ℚ) < (q.den : ℚ) * 1000 := by
    have := q.den_pos
    positivity
  positivity

theorem sqrt50_pos (x : ℚ) : 0 < ratSqrt (max 50 x) :=
  ratSqrt_pos _ (lt_of_lt_of_le (by norm_num) (le_max_left 50 x))

theorem sq2_ne (x : ℚ) : 2 * ratSqrt (max 50 x) * ratSqrt (max 50 x) ≠ 0 := by
  have := sqrt50_pos x
  positivity

theorem sq_ne (x : ℚ) : ratSqrt (max 50 x) * ratSqrt (max 50 x) ≠ 0 := by
  have := sqrt50_pos x
  positivity

theorem fixden_ne (u x : ℚ) : 2 * ((0.25 : ℚ) * (|u| + ratSqrt (max 50 x))) ≠ 0 := by
  have h1 := sqrt50_pos x
  have h2 : (0 : ℚ) ≤ |u| := abs_nonneg u
  positivity

theorem max50_nonneg (x : ℚ) : (0 : ℚ) ≤ max 50 x :=
  le_trans (by norm_num) (le_max_left 50 x)

theorem fin_add (a b : ℚ) : FVal.fin a + FVal.fin b = FVal.fin (a + b) := rfl

theorem fin_sub (a b : ℚ) : FVal.fin a - FVal.fin b = FVal.fin (a - b) := by
  show FVal.add (FVal.fin a) (FVal.neg (FVal.fin b)) = FVal.fin (a - b)
  simp [FVal.add, FVal.neg, sub_eq_add_neg]

theorem fin_mul (a b : ℚ) : FVal.fin a * FVal.fin b = FVal.fin (a * b) := rfl

theorem fin_neg (a : ℚ) : -(FVal.fin a) = FVal.fin (-a) := rfl

theorem fin_div (a b : ℚ) (h : b ≠ 0) : FVal.fin a / FVal.fin b = FVal.fin (a / b) := by
  show FVal.div (FVal.fin a) (FVal.fin b) = FVal.fin (a / b)
  simp [FVal.div, h]

theorem fin_fmax (a b : ℚ) : FVal.fmax (FVal.fin a) (FVal.fin b) = FVal.fin (max a b) := by
  show (if FVal.ltV (FVal.fin a) (FVal.fin b) = true then FVal.fin b else FVal.fin a)
      = FVal.fin (max a b)
  by_cases h : a < b
  · rw [if_pos (by simpa [FVal.ltV] using h)]
    simp [max_eq_right h.le]
  · rw [if_neg (by simpa [FVal.ltV] using h)]
    simp [max_eq_left (not_lt.mp h)]

theorem fin_fmin (a b : ℚ) : FVal.fmin (FVal.fin a) (FVal.fin b) = FVal.fin (min a b) := by
  show (if FVal.ltV (FVal.fin b) (FVal.fin a) = true then FVal.fin b else FVal.fin a)
      = FVal.fin (min a b)
  by_cases h : b < a
  · rw [if_pos (by simpa [FVal.ltV] using h)]
    simp [min_eq_right h.le]
  · rw [if_neg (by simpa [FVal.ltV] using h)]
    simp [min_eq_left (not_lt.mp h)]

theorem fin_fabs (a : ℚ) : FVal.fabs (FVal.fin a) = FVal.fin |a| := rfl

theorem fin_sqrtF (a : ℚ) (h : 0 ≤ a) : FVal.sqrtF (FVal.fin a) = FVal.fin (ratSqrt a) := by
  show (if a < 0 then FVal.nan else FVal.fin (ratSqrt a)) = FVal.fin (ratSqrt a)
  rw [if_neg (not_lt.mpr h)]

theorem fin_jlt (a b : ℚ) : FVal.jlt (FVal.fin a) (FVal.fin b) = decide (a < b) := rfl

theorem isNaN_fin (a : ℚ) : (FVal.fin a).isNaN = false := rfl

theorem ite_fin (c : Prop) [Decidable c] (a b : ℚ) :
    (if c then FVal.fin a else FVal.fin b) = FVal.fin (if c then a else b) :=
  (apply_ite FVal.fin c a b).symm

/-! ## Claim C9 -/

/-- Claim C9: zero-jump flux.  For a face whose two cells carry the
same finite conservative 4-tuple, with density at least the kernel
floor `1e-6` and helper pressure `p` above its clamp floor `10`, all
wave amplitudes vanish (the four deltas are zero), so in the exact
arithmetic of this model the dissipation vector is exactly zero — a
fortiori within `1e-9` — and the kernel returns the exact Euler flux of
that single state rotated to the global frame:
`(rho*un, rho*un*u + p*nx, rho*un*v + p*ny, rho*un*h)` with
`u = mx/r`, `v = my/r`, `un = u*nx + v*ny` and `h = (E + p)/rho`. -/
theorem spec_C9 (Q : List FVal) (idxL idxR : Nat) (qnx qny r mx my e p : ℚ)
    (hn : (qnx = 1 ∧ qny = 0) ∨ (qnx = 0 ∧ qny = 1))
    (hL0 : rd Q idxL = fv r) (hL1 : rd Q (idxL + 1) = fv mx)
    (hL2 : rd Q (idxL + 2) = fv my) (hL3 : rd Q (idxL + 3) = fv e)
    (hR0 : rd Q idxR = fv r) (hR1 : rd Q (idxR + 1) = fv mx)
    (hR2 : rd Q (idxR + 2) = fv my) (hR3 : rd Q (idxR + 3) = fv e)
    (hr : (0.000001 : ℚ) ≤ r)
    (hp : getPressure (fv r) (fv mx) (fv my) (fv e) = fv p)
    (hp10 : (10 : ℚ) < p) :
    roeFlux1D Q idxL idxR (fv qnx) (fv qny)
      = [fv (r * (mx / r * qnx + my / r * qny)),
          fv (r * (mx / r * qnx + my / r * qny) * (mx / r) + p * qnx),
          fv (r * (mx / r * qnx + my / r * qny) * (my / r) + p * qny),
          fv (r * (mx / r * qnx + my / r * qny) * ((e + p) / r))] := by
  have hrne : r ≠ 0 := by positivity
  have h0r : (0 : ℚ) ≤ r := by positivity
  have hidne : ratSqrt r + ratSqrt r + 0.000000001 ≠ 0 := by
    have h1 := ratSqrt_nonneg r
    positivity
  have hmaxr : FVal.fmax (fv 0.000001) (fv r) = fv r := by
    show FVal.fmax (FVal.fin 0.000001) (FVal.fin r) = FVal.fin r
    rw [fin_fmax, max_eq_right hr]
  simp only [roeFlux1D, roeCore]
  rw [hL0, hL1, hL2, hL3, hR0, hR1, hR2, hR3, hmaxr, hp]
  simp (disch := first
      | exact hrne
      | exact h0r
      | exact hidne
      | exact sq2_ne _
      | exact sq_ne _
      | exact fixden_ne _ _
      | exact max50_nonneg _
      | positivity) only
    [FVal.fv, GAMMA, fin_add, fin_sub, fin_mul, fin_neg, fin_div, fin_fmax,
      fin_fmin, fin_sqrtF, fin_fabs, fin_jlt, ite_fin, isNaN_fin, Bool.or_self,
      Bool.false_eq_true, if_false, decide_eq_true_eq, List.cons.injEq, and_true,
      FVal.fin.injEq]
  rcases hn with ⟨h1, h2⟩ | ⟨h1, h2⟩ <;> subst h1 <;> subst h2 <;>
    refine ⟨?_, ?_, ?_, ?_⟩ <;> ring

/-- Two identical concrete cells `(1, 1, 0, 100)` (helper pressure
`39.8 > 10`, density `1 >= 1e-6`). -/
def qC9 : List FVal := [fv 1, fv 1, fv 0, fv 100, fv 1, fv 1, fv 0, fv 100]

/-- Claim C9 (witness): on a concrete identical-state face the kernel
returns exactly the Euler flux of the shared state. -/
theorem spec_C9_witness :
    ((0.000001 : ℚ) ≤ 1 ∧
        getPressure (fv 1) (fv 1) (fv 0) (fv 100) = fv 39.8 ∧ (10 : ℚ) < 39.8) ∧
      roeFlux1D qC9 0 4 (fv 1) (fv 0)
        = [fv (1 * (1 / 1 * 1 + 0 / 1 * 0)),
            fv (1 * (1 / 1 * 1 + 0 / 1 * 0) * (1 / 1) + 39.8 * 1),
            fv (1 * (1 / 1 * 1 + 0 / 1 * 0) * (0 / 1) + 39.8 * 0),
            fv (1 * (1 / 1 * 1 + 0 / 1 * 0) * ((100 + 39.8) / 1))] :=
  ⟨⟨by norm_num, by with_unfolding_all decide, by norm_num⟩,
    spec_C9 qC9 0 4 1 0 1 1 0 100 39.8 (Or.inl ⟨rfl, rfl⟩)
      rfl rfl rfl rfl rfl rfl rfl rfl (by norm_num)
      (by with_unfolding_all decide) (by norm_num)⟩

/-! ## Claim C7 -/

theorem cell_slot_ne {N r1 c1 r2 c2 k1 k2 : Nat} (hc1 : c1 < N) (hc2 : c2 < N)
    (hk1 : k1 < 4) (hk2 : k2 < 4) (hne : ¬(r1 = r2 ∧ c1 = c2)) :
    (r1 * N + c1) * 4 + k1 ≠ (r2 * N + c2) * 4 + k2 := by
  intro h
  have hcell : r1 * N + c1 = r2 * N + c2 := by omega
  rcases Nat.lt_trichotomy r1 r2 with hr | hr | hr
  · have h2 : (r1 + 1) * N ≤ r2 * N := Nat.mul_le_mul_right N hr
    have h3 : (r1 + 1) * N = r1 * N + N := by rw [Nat.succ_mul]
    omega
  · subst hr
    exact hne ⟨rfl, by omega⟩
  · have h2 : (r2 + 1) * N ≤ r1 * N := Nat.mul_le_mul_right N hr
    have h3 : (r2 + 1) * N = r2 * N + N := by rw [Nat.succ_mul]
    omega

theorem fold_rd_other (f : List FVal → Nat → List FVal) (P : Nat → Nat → Prop)
    (hf : ∀ q j pos, P j pos → rd (f q j) pos = rd q pos) :
    ∀ (l : List Nat) (q : List FVal) (pos : Nat), (∀ j ∈ l, P j pos) →
      rd (l.foldl f q) pos = rd q pos
  | [], _, _, _ => rfl
  | j :: l, q, pos, h => by
    rw [List.foldl_cons,
      fold_rd_other f P hf l (f q j) pos (fun i hi => h i (List.mem_cons_of_mem j hi)),
      hf q j pos (h j (List.mem_cons_self j l))]

theorem inletCell_rd_other (s : Solver) (c radius : Nat) (q : List FVal)
    (j pos : Nat) (h : ∀ k, k < 4 → pos ≠ (j * s.nx) * 4 + k) :
    rd (inletCell s c radius q j) pos = rd q pos := by
  have w0 := h 0 (by omega)
  have w1 := h 1 (by omega)
  have w2 := h 2 (by omega)
  have w3 := h 3 (by omega)
  simp only [inletCell]
  split <;> simp (disch := omega) only [rd_wr_ne]

theorem outletCell_rd_other (s : Solver) (q : List FVal) (j pos : Nat)
    (h : ∀ k, k < 4 → pos ≠ (j * s.nx + s.nx - 1) * 4 + k) :
    rd (outletCell s q j) pos = rd q pos := by
  have w0 := h 0 (by omega)
  have w1 := h 1 (by omega)
  have w2 := h 2 (by omega)
  have w3 := h 3 (by omega)
  simp (disch := omega) only [outletCell, rd_wr_ne]

theorem farFieldCell_rd_other (s : Solver) (q : List FVal) (i pos : Nat)
    (h1 : ∀ k, k < 4 → pos ≠ i * 4 + k)
    (h2 : ∀ k, k < 4 → pos ≠ ((s.ny - 1) * s.nx + i) * 4 + k) :
    rd (farFieldCell s q i) pos = rd q pos := by
  have a0 := h1 0 (by omega)
  have a1 := h1 1 (by omega)
  have a2 := h1 2 (by omega)
  have a3 := h1 3 (by omega)
  have b0 := h2 0 (by omega)
  have b1 := h2 1 (by omega)
  have b2 := h2 2 (by omega)
  have b3 := h2 3 (by omega)
  simp (disch := omega) only [farFieldCell, rd_wr_ne]

theorem inletCell_length (s : Solver) (c radius : Nat) (q : List FVal) (j : Nat) :
    (inletCell s c radius q j).length = q.length := by
  simp only [inletCell]
  split <;> simp [wr_length]

theorem inletFold_length (s : Solver) (c radius : Nat) :
    ∀ (l : List Nat) (q : List FVal),
      (l.foldl (inletCell s c radius) q).length = q.length
  | [], _ => rfl
  | j :: l, q => by
    rw [List.foldl_cons, inletFold_length s c radius l, inletCell_length]

theorem inletFold_wall (s : Solver) (centerY radius : Nat) (hnx : 2 ≤ s.nx) :
    ∀ (n : Nat) (q : List FVal) (j : Nat), j < n →
      ¬(((j : Int) - (centerY : Int)).natAbs ≤ radius) →
      (j * s.nx) * 4 + 3 < q.length →
      (rd ((List.range n).foldl (inletCell s centerY radius) q) ((j * s.nx) * 4)
          = rd q ((j * s.nx + 1) * 4) ∧
        rd ((List.range n).foldl (inletCell s centerY radius) q) ((j * s.nx) * 4 + 1)
          = fv 0 ∧
        rd ((List.range n).foldl (inletCell s centerY radius) q) ((j * s.nx) * 4 + 2)
          = rd q ((j * s.nx + 1) * 4 + 2) ∧
        rd ((List.range n).foldl (inletCell s centerY radius) q) ((j * s.nx) * 4 + 3)
          = computeEnergy (rd q ((j * s.nx + 1) * 4)) (fv 0)
              (rd q ((j * s.nx + 1) * 4 + 2) / rd q ((j * s.nx + 1) * 4))
              (getPressure (rd q ((j * s.nx + 1) * 4)) (rd q ((j * s.nx + 1) * 4 + 1))
                (rd q ((j * s.nx + 1) * 4 + 2)) (rd q ((j * s.nx + 1) * 4 + 3)))) := by
  intro n
  induction n with
  | zero => intro q j hj; omega
  | succ n ih =>
    intro q j hj hw hlen
    rw [List.range_succ, List.foldl_append, List.foldl_cons, List.foldl_nil]
    rcases Nat.lt_or_ge j n with hjn | hjn
    · -- row n's application does not touch row j's column-0 cell
      have hother : ∀ t, t < 4 →
          rd (inletCell s centerY radius
              ((List.range n).foldl (inletCell s centerY radius) q) n)
            ((j * s.nx) * 4 + t)
          = rd ((List.range n).foldl (inletCell s centerY radius) q)
            ((j * s.nx) * 4 + t) := by
        intro t ht
        refine inletCell_rd_other s centerY radius _ n _ (fun k hk => ?_)
        have hne : (j * s.nx + 0) * 4 + t ≠ (n * s.nx + 0) * 4 + k :=
          cell_slot_ne (by omega) (by omega) ht hk (by omega)
        simpa using hne
      obtain ⟨g0, g1, g2, g3⟩ := ih q j hjn hw hlen
      refine ⟨?_, ?_, ?_, ?_⟩
      · rw [show (j * s.nx) * 4 = (j * s.nx) * 4 + 0 by omega] at g0 ⊢
        rw [hother 0 (by omega)]
        exact g0
      · rw [hother 1 (by omega)]
        exact g1
      · rw [hother 2 (by omega)]
        exact g2
      · rw [hother 3 (by omega)]
        exact g3
    · have hjeq : j = n := by omega
      subst hjeq
      -- the row-j application itself; reads of column 1 see the original q
      have hL1 : ∀ t, t < 4 →
          rd ((List.range j).foldl (inletCell s centerY radius) q)
            ((j * s.nx + 1) * 4 + t)
          = rd q ((j * s.nx + 1) * 4 + t) := by
        intro t ht
        refine fold_rd_other _ (fun m pos => ∀ k, k < 4 → pos ≠ (m * s.nx) * 4 + k)
          (fun q2 m pos hp => inletCell_rd_other s centerY radius q2 m pos hp)
          (List.range j) q _ (fun m _ k hk => ?_)
        have hne : (j * s.nx + 1) * 4 + t ≠ (m * s.nx + 0) * 4 + k :=
          cell_slot_ne (by omega) (by omega) ht hk (by simp)
        simpa using hne
      have hflen : ((List.range j).foldl (inletCell s centerY radius) q).length
          = q.length := inletFold_length s centerY radius _ q
      simp only [inletCell]
      rw [if_neg hw]
      have e4 : (j * s.nx) * 4 + 4 = (j * s.nx + 1) * 4 := by ring
      have e5 : (j * s.nx) * 4 + 4 + 1 = (j * s.nx + 1) * 4 + 1 := by ring
      have e6 : (j * s.nx) * 4 + 4 + 2 = (j * s.nx + 1) * 4 + 2 := by ring
      have e7 : (j * s.nx) * 4 + 4 + 3 = (j * s.nx + 1) * 4 + 3 := by ring
      have r0 : rd ((List.range j).foldl (inletCell s centerY radius) q)
          ((j * s.nx + 1) * 4) = rd q ((j * s.nx + 1) * 4) := by
        simpa using hL1 0 (by omega)
      have r1 := hL1 1 (by omega)
      have r2 := hL1 2 (by omega)
      have r3 := hL1 3 (by omega)
      refine ⟨?_, ?_, ?_, ?_⟩ <;>
        · simp (disch := first | (simp only [wr_length, hflen]; omega) | omega) only
            [rd_wr_ne, rd_wr_eq]
          try simp only [e4, e5, e6, e7, r0, r1, r2, r3]

theorem farFieldCell_length (s : Solver) (q : List FVal) (i : Nat) :
    (farFieldCell s q i).length = q.length := by
  simp [farFieldCell, wr_length]

theorem farFold_length (s : Solver) :
    ∀ (l : List Nat) (q : List FVal), (l.foldl (farFieldCell s) q).length = q.length
  | [], _ => rfl
  | i :: l, q => by
    rw [List.foldl_cons, farFold_length s l, farFieldCell_length]

theorem farFold_rd (s : Solver) (hny : 2 ≤ s.ny) :
    ∀ (n : Nat) (q : List FVal) (i : Nat), i < n → n ≤ s.nx →
      i * 4 + 3 < q.length → ((s.ny - 1) * s.nx + i) * 4 + 3 < q.length →
      (rd ((List.range n).foldl (farFieldCell s) q) (i * 4) = s.ambientState.rho ∧
        rd ((List.range n).foldl (farFieldCell s) q) (i * 4 + 1) = fv 0 ∧
        rd ((List.range n).foldl (farFieldCell s) q) (i * 4 + 2) = fv 0 ∧
        rd ((List.range n).foldl (farFieldCell s) q) (i * 4 + 3) = s.ambientState.E ∧
        rd ((List.range n).foldl (farFieldCell s) q) (((s.ny - 1) * s.nx + i) * 4)
          = s.ambientState.rho ∧
        rd ((List.range n).foldl (farFieldCell s) q) (((s.ny - 1) * s.nx + i) * 4 + 1)
          = fv 0 ∧
        rd ((List.range n).foldl (farFieldCell s) q) (((s.ny - 1) * s.nx + i) * 4 + 2)
          = fv 0 ∧
        rd ((List.range n).foldl (farFieldCell s) q) (((s.ny - 1) * s.nx + i) * 4 + 3)
          = s.ambientState.E) := by
  intro n
  induction n with
  | zero => intro q i hi; omega
  | succ n ih =>
    intro q i hi hnnx hb1 hb2
    have hx1 : s.nx ≤ (s.ny - 1) * s.nx := Nat.le_mul_of_pos_left s.nx (by omega)
    rw [List.range_succ, List.foldl_append, List.foldl_cons, List.foldl_nil]
    rcases Nat.lt_or_ge i n with hin | hin
    · obtain ⟨g0, g1, g2, g3, g4, g5, g6, g7⟩ := ih q i hin (by omega) hb1 hb2
      refine ⟨?_, ?_, ?_, ?_, ?_, ?_, ?_, ?_⟩ <;>
        · simp (disch := omega) only [farFieldCell, rd_wr_ne]
          first
            | exact g0 | exact g1 | exact g2 | exact g3
            | exact g4 | exact g5 | exact g6 | exact g7
    · have hieq : i = n := by omega
      subst hieq
      have hflen : ((List.range i).foldl (farFieldCell s) q).length = q.length :=
        farFold_length s _ q
      have hinx : i < s.nx := by omega
      refine ⟨?_, ?_, ?_, ?_, ?_, ?_, ?_, ?_⟩ <;>
        simp (disch := first | (simp only [wr_length, hflen]; omega) | omega) only
          [farFieldCell, rd_wr_ne, rd_wr_eq]

theorem wall_pressure_preserved (r1 m1x m1y e1 : ℚ) (hr1 : (0.0001 : ℚ) ≤ r1) :
    getPressure (fv r1) (fv 0) (fv m1y)
      (computeEnergy (fv r1) (fv 0) (fv m1y / fv r1)
        (getPressure (fv r1) (fv m1x) (fv m1y) (fv e1)))
    = getPressure (fv r1) (fv m1x) (fv m1y) (fv e1) := by
  have hrne : r1 ≠ 0 := by positivity
  have hmne : max (0.0001 : ℚ) r1 ≠ 0 := by
    rw [max_eq_right hr1]
    exact hrne
  simp (disch := first | exact hrne | exact hmne | norm_num) only
    [FVal.fv, getPressure, computeEnergy, GAMMA, fin_add, fin_sub, fin_mul,
      fin_neg, fin_div, fin_fmax, FVal.fin.injEq]
  rw [max_eq_right hr1]
  have key : (1.4 - 1) *
        ((max (10 : ℚ) ((1.4 - 1) * (e1 - 0.5 * (m1x * m1x + m1y * m1y) / r1)) / (1.4 - 1)
            + 0.5 * r1 * (0 * 0 + m1y / r1 * (m1y / r1)))
          - 0.5 * (0 * 0 + m1y * m1y) / r1)
      = max (10 : ℚ) ((1.4 - 1) * (e1 - 0.5 * (m1x * m1x + m1y * m1y) / r1)) := by
    field_simp
    ring
  rw [key, ← max_assoc, max_self]

theorem outletCell_length (s : Solver) (q : List FVal) (j : Nat) :
    (outletCell s q j).length = q.length := by
  simp [outletCell, wr_length]

theorem outletFold_length (s : Solver) :
    ∀ (l : List Nat) (q : List FVal), (l.foldl (outletCell s) q).length = q.length
  | [], _ => rfl
  | j :: l, q => by
    rw [List.foldl_cons, outletFold_length s l, outletCell_length]

/-- Claim C7 (amended): after the boundary imprint, every left-column
cell outside the inlet aperture carries the slip wall: density copied
from column 1, x-momentum zero, y-momentum copied from column 1, and
the pressure helper applied to the imprinted cell returns exactly the
pressure of cell `(1, j)` — PROVIDED the density of cell `(1, j)` is at
least the helper's `1e-4` guard and its components are finite (the
counterexample shows the pressure-preservation clause fails below the
guard).  Rows `0` and `ny - 1` are subsequently overwritten by the
ambient far field, under which all four clauses hold trivially. -/
theorem spec_C7 (s : Solver) (j : Nat) (r1 m1x m1y e1 : ℚ)
    (hnx : 3 ≤ s.nx) (hj : j < s.ny)
    (hw : ¬(((j : Int) - ((s.ny / 2 : Nat) : Int)).natAbs ≤ s.ny / 8))
    (hqlen : s.Qnew.length = s.nx * s.ny * 4)
    (h1 : rd s.Qnew ((j * s.nx + 1) * 4) = fv r1)
    (h2 : rd s.Qnew ((j * s.nx + 1) * 4 + 1) = fv m1x)
    (h3 : rd s.Qnew ((j * s.nx + 1) * 4 + 2) = fv m1y)
    (h4 : rd s.Qnew ((j * s.nx + 1) * 4 + 3) = fv e1)
    (hr1 : (0.0001 : ℚ) ≤ r1) :
    rd (applyBoundaryConditions s).Qnew ((j * s.nx) * 4)
        = rd (applyBoundaryConditions s).Qnew ((j * s.nx + 1) * 4) ∧
      rd (applyBoundaryConditions s).Qnew ((j * s.nx) * 4 + 1) = fv 0 ∧
      rd (applyBoundaryConditions s).Qnew ((j * s.nx) * 4 + 2)
        = rd (applyBoundaryConditions s).Qnew ((j * s.nx + 1) * 4 + 2) ∧
      getPressure (rd (applyBoundaryConditions s).Qnew ((j * s.nx) * 4))
          (rd (applyBoundaryConditions s).Qnew ((j * s.nx) * 4 + 1))
          (rd (applyBoundaryConditions s).Qnew ((j * s.nx) * 4 + 2))
          (rd (applyBoundaryConditions s).Qnew ((j * s.nx) * 4 + 3))
        = getPressure (rd (applyBoundaryConditions s).Qnew ((j * s.nx + 1) * 4))
            (rd (applyBoundaryConditions s).Qnew ((j * s.nx + 1) * 4 + 1))
            (rd (applyBoundaryConditions s).Qnew ((j * s.nx + 1) * 4 + 2))
            (rd (applyBoundaryConditions s).Qnew ((j * s.nx + 1) * 4 + 3)) := by
  have hny2 : 2 ≤ s.ny := by
    by_contra hc
    have h1y : s.ny = 1 := by omega
    have hj0 : j = 0 := by omega
    rw [h1y, hj0] at hw
    simp at hw
  have hcomm : s.ny * s.nx = s.nx * s.ny := Nat.mul_comm s.ny s.nx
  have hkey : (s.ny - 1) * s.nx + s.nx = s.ny * s.nx := by
    have h5 : (s.ny - 1 + 1) * s.nx = (s.ny - 1) * s.nx + s.nx := Nat.succ_mul _ _
    have h6 : s.ny - 1 + 1 = s.ny := by omega
    rw [h6] at h5
    omega
  have hQb : (applyBoundaryConditions s).Qnew
      = (List.range s.nx).foldl (farFieldCell s)
          ((List.range s.ny).foldl (outletCell s)
            ((List.range s.ny).foldl (inletCell s (s.ny / 2) (s.ny / 8)) s.Qnew)) := rfl
  have hlen1 : ((List.range s.ny).foldl (inletCell s (s.ny / 2) (s.ny / 8)) s.Qnew).length
      = s.nx * s.ny * 4 := by rw [inletFold_length]; exact hqlen
  have hlen2 : ((List.range s.ny).foldl (outletCell s)
        ((List.range s.ny).foldl (inletCell s (s.ny / 2) (s.ny / 8)) s.Qnew)).length
      = s.nx * s.ny * 4 := by rw [outletFold_length]; exact hlen1
  rcases Nat.lt_or_ge j (s.ny - 1) with hjtop | hjtop
  · rcases Nat.eq_zero_or_pos j with hj0 | hj0
    · -- bottom far-field row: both cells are hard-set to ambient
      subst hj0
      obtain ⟨f0, f1, f2, f3, _, _, _, _⟩ :=
        farFold_rd s hny2 s.nx
          ((List.range s.ny).foldl (outletCell s)
            ((List.range s.ny).foldl (inletCell s (s.ny / 2) (s.ny / 8)) s.Qnew))
          0 (by omega) le_rfl (by rw [hlen2]; omega) (by rw [hlen2]; omega)
      obtain ⟨g0, g1, g2, g3, _, _, _, _⟩ :=
        farFold_rd s hny2 s.nx
          ((List.range s.ny).foldl (outletCell s)
            ((List.range s.ny).foldl (inletCell s (s.ny / 2) (s.ny / 8)) s.Qnew))
          1 (by omega) le_rfl (by rw [hlen2]; omega) (by rw [hlen2]; omega)
      rw [hQb]
      rw [show (0 * s.nx) * 4 = 0 * 4 by omega, show (0 * s.nx + 1) * 4 = 1 * 4 by omega]
      rw [f0, f1, f2, f3, g0, g1, g2, g3]
      exact ⟨rfl, rfl, rfl, rfl⟩
    · -- interior row: the slip wall of the inlet loop survives the
      -- outlet and far-field loops
      have hpres : ∀ c t, c < 2 → t < 4 →
          rd (applyBoundaryConditions s).Qnew ((j * s.nx + c) * 4 + t)
            = rd ((List.range s.ny).foldl (inletCell s (s.ny / 2) (s.ny / 8)) s.Qnew)
                ((j * s.nx + c) * 4 + t) := by
        intro c t hc ht
        rw [hQb]
        rw [fold_rd_other (farFieldCell s)
          (fun i pos => (∀ k, k < 4 → pos ≠ i * 4 + k) ∧
            (∀ k, k < 4 → pos ≠ ((s.ny - 1) * s.nx + i) * 4 + k))
          (fun q2 i pos hp => farFieldCell_rd_other s q2 i pos hp.1 hp.2)
          _ _ _ ?_]
        · rw [fold_rd_other (outletCell s)
            (fun m pos => ∀ k, k < 4 → pos ≠ (m * s.nx + s.nx - 1) * 4 + k)
            (fun q2 m pos hp => outletCell_rd_other s q2 m pos hp)
            _ _ _ ?_]
          intro m _ k hk
          rw [show m * s.nx + s.nx - 1 = m * s.nx + (s.nx - 1) by omega]
          exact cell_slot_ne (by omega) (by omega) ht hk (by omega)
        · intro i hi
          have hinx : i < s.nx := List.mem_range.mp hi
          constructor
          · intro k hk
            have hne : (j * s.nx + c) * 4 + t ≠ (0 * s.nx + i) * 4 + k :=
              cell_slot_ne (by omega) (by omega) ht hk (by omega)
            simpa using hne
          · intro k hk
            exact cell_slot_ne (by omega) (by omega) ht hk (by omega)
      have hb : (j * s.nx) * 4 + 3 < s.Qnew.length := by
        rw [hqlen]
        have h7 : j + 1 ≤ s.ny := hj
        have h8 : (j + 1) * s.nx ≤ s.ny * s.nx := Nat.mul_le_mul_right s.nx h7
        have h9 : (j + 1) * s.nx = j * s.nx + s.nx := Nat.succ_mul _ _
        omega
      obtain ⟨w0, w1, w2, w3⟩ :=
        inletFold_wall s (s.ny / 2) (s.ny / 8) (by omega) s.ny s.Qnew j hj hw hb
      have hcol1 : ∀ t, t < 4 →
          rd ((List.range s.ny).foldl (inletCell s (s.ny / 2) (s.ny / 8)) s.Qnew)
              ((j * s.nx + 1) * 4 + t)
            = rd s.Qnew ((j * s.nx + 1) * 4 + t) := by
        intro t ht
        refine fold_rd_other _ (fun m pos => ∀ k, k < 4 → pos ≠ (m * s.nx) * 4 + k)
          (fun q2 m pos hp => inletCell_rd_other s (s.ny / 2) (s.ny / 8) q2 m pos hp)
          (List.range s.ny) s.Qnew _ (fun m _ k hk => ?_)
        have hne : (j * s.nx + 1) * 4 + t ≠ (m * s.nx + 0) * 4 + k :=
          cell_slot_ne (by omega) (by omega) ht hk (by simp)
        simpa using hne
      have a0 : rd (applyBoundaryConditions s).Qnew ((j * s.nx) * 4) = fv r1 := by
        have hp := hpres 0 0 (by omega) (by omega)
        rw [show (j * s.nx + 0) * 4 + 0 = (j * s.nx) * 4 by omega] at hp
        rw [hp, w0, h1]
      have a1 : rd (applyBoundaryConditions s).Qnew ((j * s.nx) * 4 + 1) = fv 0 := by
        have hp := hpres 0 1 (by omega) (by omega)
        rw [show (j * s.nx + 0) * 4 + 1 = (j * s.nx) * 4 + 1 by omega] at hp
        rw [hp, w1]
      have a2 : rd (applyBoundaryConditions s).Qnew ((j * s.nx) * 4 + 2) = fv m1y := by
        have hp := hpres 0 2 (by omega) (by omega)
        rw [show (j * s.nx + 0) * 4 + 2 = (j * s.nx) * 4 + 2 by omega] at hp
        rw [hp, w2, h3]
      have a3 : rd (applyBoundaryConditions s).Qnew ((j * s.nx) * 4 + 3)
          = computeEnergy (fv r1) (fv 0) (fv m1y / fv r1)
              (getPressure (fv r1) (fv m1x) (fv m1y) (fv e1)) := by
        have hp := hpres 0 3 (by omega) (by omega)
        rw [show (j * s.nx + 0) * 4 + 3 = (j * s.nx) * 4 + 3 by omega] at hp
        rw [hp, w3, h1, h2, h3, h4]
      have b0 : rd (applyBoundaryConditions s).Qnew ((j * s.nx + 1) * 4) = fv r1 := by
        have hp := hpres 1 0 (by omega) (by omega)
        have hc0 := hcol1 0 (by omega)
        rw [show (j * s.nx + 1) * 4 + 0 = (j * s.nx + 1) * 4 by omega] at hp hc0
        rw [hp, hc0, h1]
      have b1 : rd (applyBoundaryConditions s).Qnew ((j * s.nx + 1) * 4 + 1) = fv m1x := by
        have hp := hpres 1 1 (by omega) (by omega)
        rw [hp, hcol1 1 (by omega), h2]
      have b2 : rd (applyBoundaryConditions s).Qnew ((j * s.nx + 1) * 4 + 2) = fv m1y := by
        have hp := hpres 1 2 (by omega) (by omega)
        rw [hp, hcol1 2 (by omega), h3]
      have b3 : rd (applyBoundaryConditions s).Qnew ((j * s.nx + 1) * 4 + 3) = fv e1 := by
        have hp := hpres 1 3 (by omega) (by omega)
        rw [hp, hcol1 3 (by omega), h4]
      refine ⟨?_, ?_, ?_, ?_⟩
      · rw [a0, b0]
      · exact a1
      · rw [a2, b2]
      · rw [a0, a1, a2, a3, b0, b1, b2, b3]
        exact wall_pressure_preserved r1 m1x m1y e1 hr1
  · -- top far-field row
    have hjeq : j = s.ny - 1 := by omega
    subst hjeq
    obtain ⟨_, _, _, _, f0, f1, f2, f3⟩ :=
      farFold_rd s hny2 s.nx
        ((List.range s.ny).foldl (outletCell s)
          ((List.range s.ny).foldl (inletCell s (s.ny / 2) (s.ny / 8)) s.Qnew))
        0 (by omega) le_rfl (by rw [hlen2]; omega) (by rw [hlen2]; omega)
    obtain ⟨_, _, _, _, g0, g1, g2, g3⟩ :=
      farFold_rd s hny2 s.nx
        ((List.range s.ny).foldl (outletCell s)
          ((List.range s.ny).foldl (inletCell s (s.ny / 2) (s.ny / 8)) s.Qnew))
        1 (by omega) le_rfl (by rw [hlen2]; omega) (by rw [hlen2]; omega)
    rw [hQb]
    rw [show ((s.ny - 1) * s.nx) * 4 = ((s.ny - 1) * s.nx + 0) * 4 by omega]
    rw [f0, f1, f2, f3, g0, g1, g2, g3]
    exact ⟨rfl, rfl, rfl, rfl⟩

/-- A concrete 4-by-4 tentative buffer whose cell `(1,1)` holds
`(1, 2, 3, 100)`. -/
def sC7 : Solver :=
  { construct 4 4 with
    Qnew := wr (wr (wr (wr ((List.replicate 16 cellOne).flatten) 20 (fv 1)) 21 (fv 2))
      22 (fv 3)) 23 (fv 100) }

/-- Claim C7 (witness): the wall imprint equations at the concrete
out-of-aperture row `j = 1` of a 4-by-4 grid. -/
theorem spec_C7_witness :
    (3 ≤ sC7.nx ∧ 1 < sC7.ny ∧
        ¬(((1 : Int) - ((sC7.ny / 2 : Nat) : Int)).natAbs ≤ sC7.ny / 8) ∧
        rd sC7.Qnew ((1 * sC7.nx + 1) * 4) = fv 1 ∧ (0.0001 : ℚ) ≤ 1) ∧
      (rd (applyBoundaryConditions sC7).Qnew ((1 * sC7.nx) * 4)
          = rd (applyBoundaryConditions sC7).Qnew ((1 * sC7.nx + 1) * 4) ∧
        rd (applyBoundaryConditions sC7).Qnew ((1 * sC7.nx) * 4 + 1) = fv 0 ∧
        rd (applyBoundaryConditions sC7).Qnew ((1 * sC7.nx) * 4 + 2)
          = rd (applyBoundaryConditions sC7).Qnew ((1 * sC7.nx + 1) * 4 + 2) ∧
        getPressure (rd (applyBoundaryConditions sC7).Qnew ((1 * sC7.nx) * 4))
            (rd (applyBoundaryConditions sC7).Qnew ((1 * sC7.nx) * 4 + 1))
            (rd (applyBoundaryConditions sC7).Qnew ((1 * sC7.nx) * 4 + 2))
            (rd (applyBoundaryConditions sC7).Qnew ((1 * sC7.nx) * 4 + 3))
          = getPressure (rd (applyBoundaryConditions sC7).Qnew ((1 * sC7.nx + 1) * 4))
              (rd (applyBoundaryConditions sC7).Qnew ((1 * sC7.nx + 1) * 4 + 1))
              (rd (applyBoundaryConditions sC7).Qnew ((1 * sC7.nx + 1) * 4 + 2))
              (rd (applyBoundaryConditions sC7).Qnew ((1 * sC7.nx + 1) * 4 + 3))) :=
  ⟨⟨by decide, by decide, by with_unfolding_all decide,
      by with_unfolding_all decide, by norm_num⟩,
    spec_C7 sC7 1 1 2 3 100 (by decide) (by decide)
      (by with_unfolding_all decide) (by with_unfolding_all decide)
      (by with_unfolding_all decide) (by with_unfolding_all decide)
      (by with_unfolding_all decide) (by with_unfolding_all decide)
      (by norm_num)⟩

/-- A concrete 4-by-4 tentative buffer whose cell `(1,1)` has density
`1e-5`, below the pressure helper's `1e-4` floor, with nonzero
y-momentum. -/
def sC7x : Solver :=
  { construct 4 4 with
    Qnew := wr (wr (wr (wr ((List.replicate 16 cellOne).flatten) 20 (fv 0.00001))
      21 (fv 0)) 22 (fv 1)) 23 (fv 2.5) }

/-- Claim C7 (counterexample): on the out-of-aperture row `j = 1`, when
the density of cell `(1,1)` is below the helper's `1e-4` guard, the
imprinted wall cell's helper pressure does NOT equal the pressure of
cell `(1,1)` — the `max(1e-4, rho)` guard breaks the cancellation the
claim relies on, so the claim as stated (for every step, with no
density proviso) is false. -/
theorem spec_C7_counterexample :
    ¬(((1 : Int) - ((sC7x.ny / 2 : Nat) : Int)).natAbs ≤ sC7x.ny / 8) ∧
      getPressure (rd (applyBoundaryConditions sC7x).Qnew ((1 * sC7x.nx) * 4))
          (rd (applyBoundaryConditions sC7x).Qnew ((1 * sC7x.nx) * 4 + 1))
          (rd (applyBoundaryConditions sC7x).Qnew ((1 * sC7x.nx) * 4 + 2))
          (rd (applyBoundaryConditions sC7x).Qnew ((1 * sC7x.nx) * 4 + 3))
        ≠ getPressure (rd (applyBoundaryConditions sC7x).Qnew ((1 * sC7x.nx + 1) * 4))
            (rd (applyBoundaryConditions sC7x).Qnew ((1 * sC7x.nx + 1) * 4 + 1))
            (rd (applyBoundaryConditions sC7x).Qnew ((1 * sC7x.nx + 1) * 4 + 2))
            (rd (applyBoundaryConditions sC7x).Qnew ((1 * sC7x.nx + 1) * 4 + 3)) := by
  constructor
  · with_unfolding_all decide
  · with_unfolding_all decide

/-! ## Finiteness infrastructure -/

/-- A JS number is an ordinary finite value. -/
def IsF (x : FVal) : Prop := ∃ q, x = FVal.fin q

theorem IsF_fin (q : ℚ) : IsF (FVal.fin q) := ⟨q, rfl⟩

theorem IsF_fv (q : ℚ) : IsF (fv q) := ⟨q, rfl⟩

theorem IsF_iff_isFinite (x : FVal) : IsF x ↔ x.isFinite = true := by
  cases x <;> simp [IsF, FVal.isFinite]

theorem IsF.addF {a b : FVal} (ha : IsF a) (hb : IsF b) : IsF (a + b) := by
  obtain ⟨qa, rfl⟩ := ha
  obtain ⟨qb, rfl⟩ := hb
  exact ⟨qa + qb, rfl⟩

theorem IsF.subF {a b : FVal} (ha : IsF a) (hb : IsF b) : IsF (a - b) := by
  obtain ⟨qa, rfl⟩ := ha
  obtain ⟨qb, rfl⟩ := hb
  exact ⟨qa - qb, fin_sub qa qb⟩

theorem IsF.mulF {a b : FVal} (ha : IsF a) (hb : IsF b) : IsF (a * b) := by
  obtain ⟨qa, rfl⟩ := ha
  obtain ⟨qb, rfl⟩ := hb
  exact ⟨qa * qb, rfl⟩

theorem IsF.divF {a b : FVal} (qb : ℚ) (ha : IsF a) (hb : b = FVal.fin qb)
    (hq : qb ≠ 0) : IsF (a / b) := by
  obtain ⟨qa, rfl⟩ := ha
  subst hb
  exact ⟨qa / qb, fin_div qa qb hq⟩

theorem IsF.fmaxF {a b : FVal} (ha : IsF a) (hb : IsF b) : IsF (FVal.fmax a b) := by
  obtain ⟨qa, rfl⟩ := ha
  obtain ⟨qb, rfl⟩ := hb
  exact ⟨max qa qb, fin_fmax qa qb⟩

theorem IsF.fminF {a b : FVal} (ha : IsF a) (hb : IsF b) : IsF (FVal.fmin a b) := by
  obtain ⟨qa, rfl⟩ := ha
  obtain ⟨qb, rfl⟩ := hb
  exact ⟨min qa qb, fin_fmin qa qb⟩

/-- The pressure helper on finite conservative inputs is a finite value
clamped at `10` from below. -/
theorem getPressure_fin (a b c d : FVal) (ha : IsF a) (hb : IsF b) (hc : IsF c)
    (hd : IsF d) : ∃ p, getPressure a b c d = FVal.fin p ∧ 10 ≤ p := by
  obtain ⟨qa, rfl⟩ := ha
  obtain ⟨qb, rfl⟩ := hb
  obtain ⟨qc, rfl⟩ := hc
  obtain ⟨qd, rfl⟩ := hd
  have hm : max (0.0001 : ℚ) qa ≠ 0 :=
    ne_of_gt (lt_of_lt_of_le (by norm_num) (le_max_left _ _))
  refine ⟨max 10 ((1.4 - 1) * (qd - 0.5 * (qb * qb + qc * qc) / max 0.0001 qa)),
    ?_, le_max_left _ _⟩
  simp (disch := first | exact hm | norm_num) only
    [getPressure, GAMMA, FVal.fv, fin_add, fin_sub, fin_mul, fin_div, fin_fmax]

theorem max1e6_ne (x : ℚ) : max (0.000001 : ℚ) x ≠ 0 :=
  ne_of_gt (lt_of_lt_of_le (by norm_num) (le_max_left _ _))

theorem max1e4_ne (x : ℚ) : max (0.0001 : ℚ) x ≠ 0 :=
  ne_of_gt (lt_of_lt_of_le (by norm_num) (le_max_left _ _))

theorem max1e6_nonneg (x : ℚ) : (0 : ℚ) ≤ max 0.000001 x :=
  le_trans (by norm_num) (le_max_left _ _)

theorem sqrts_eps_ne (x y : ℚ) :
    ratSqrt x + ratSqrt y + (0.000000001 : ℚ) ≠ 0 := by
  have h1 := ratSqrt_nonneg x
  have h2 := ratSqrt_nonneg y
  have h3 : (0 : ℚ) < 0.000000001 := by norm_num
  have h4 : (0 : ℚ) < ratSqrt x + ratSqrt y + 0.000000001 := by linarith
  exact ne_of_gt h4

/-- The core of the Roe flux maps finite primitives to four finite flux
components (every division in it is guarded by a positive floor). -/
theorem roeCore_fin (qr1 u1 v1 p1 h1 qr2 u2 v2 p2 h2 qnx qny : ℚ)
    (hr1 : (0 : ℚ) ≤ qr1) (hr2 : (0 : ℚ) ≤ qr2) :
    ∃ a b c d, roeCore (FVal.fin qr1) (FVal.fin u1) (FVal.fin v1) (FVal.fin p1)
      (FVal.fin h1) (FVal.fin qr2) (FVal.fin u2) (FVal.fin v2) (FVal.fin p2)
      (FVal.fin h2) (FVal.fin qnx) (FVal.fin qny)
      = [FVal.fin a, FVal.fin b, FVal.fin c, FVal.fin d] := by
  simp (disch := first
      | assumption
      | exact sqrts_eps_ne _ _
      | exact sq2_ne _
      | exact sq_ne _
      | exact fixden_ne _ _
      | exact max50_nonneg _
      | norm_num) only
    [roeCore, FVal.fv, GAMMA, fin_add, fin_sub, fin_mul, fin_neg, fin_div,
      fin_fmax, fin_fmin, fin_sqrtF, fin_fabs, fin_jlt, ite_fin]
  exact ⟨_, _, _, _, rfl⟩

/-- On cells with finite components the Roe flux kernel returns four
finite components. -/
theorem roeFlux_fin (Q : List FVal) (idxL idxR : Nat)
    (qnx qny rL0 mxL myL eL rR0 mxR myR eR : ℚ)
    (hL0 : rd Q idxL = fv rL0) (hL1 : rd Q (idxL + 1) = fv mxL)
    (hL2 : rd Q (idxL + 2) = fv myL) (hL3 : rd Q (idxL + 3) = fv eL)
    (hR0 : rd Q idxR = fv rR0) (hR1 : rd Q (idxR + 1) = fv mxR)
    (hR2 : rd Q (idxR + 2) = fv myR) (hR3 : rd Q (idxR + 3) = fv eR) :
    ∃ a b c d, roeFlux1D Q idxL idxR (fv qnx) (fv qny)
      = [FVal.fin a, FVal.fin b, FVal.fin c, FVal.fin d] := by
  have hrL : FVal.fmax (fv 0.000001) (rd Q idxL) = FVal.fin (max 0.000001 rL0) := by
    rw [hL0]
    exact fin_fmax _ _
  have hrR : FVal.fmax (fv 0.000001) (rd Q idxR) = FVal.fin (max 0.000001 rR0) := by
    rw [hR0]
    exact fin_fmax _ _
  obtain ⟨pLq, hpL, _⟩ := getPressure_fin (FVal.fmax (fv 0.000001) (rd Q idxL))
    (rd Q (idxL + 1)) (rd Q (idxL + 2)) (rd Q (idxL + 3))
    ⟨_, hrL⟩ ⟨_, hL1⟩ ⟨_, hL2⟩ ⟨_, hL3⟩
  obtain ⟨pRq, hpR, _⟩ := getPressure_fin (FVal.fmax (fv 0.000001) (rd Q idxR))
    (rd Q (idxR + 1)) (rd Q (idxR + 2)) (rd Q (idxR + 3))
    ⟨_, hrR⟩ ⟨_, hR1⟩ ⟨_, hR2⟩ ⟨_, hR3⟩
  simp only [roeFlux1D]
  rw [hpL, hpR, hrL, hrR, hL1, hL2, hL3, hR1, hR2, hR3]
  simp (disch := first | exact max1e6_ne _ | norm_num) only
    [FVal.fv, fin_add, fin_div, isNaN_fin, Bool.or_self, Bool.false_eq_true,
      if_false]
  exact roeCore_fin _ _ _ _ _ _ _ _ _ _ _ _ (max1e6_nonneg _) (max1e6_nonneg _)

/-! ## Claim C6 -/

theorem gs_fold_data (g : Nat → FVal) :
    ∀ (l : List Nat) (data : List FVal) (mn mx : FVal),
      (l.foldl (gsBody g) (data, mn, mx)).1 = data ++ l.map g
  | [], data, _, _ => by simp
  | i :: l, data, mn, mx => by
    rw [List.foldl_cons]
    show (l.foldl (gsBody g) (data ++ [g i], _, _)).1 = _
    rw [gs_fold_data g l (data ++ [g i])]
    simp

/-- Finite Q entries give finite `rd` reads everywhere (the default for
out-of-range reads is the finite `0`). -/
theorem all_isFinite_rd (q : List FVal) (h : q.all FVal.isFinite = true)
    (idx : Nat) : IsF (rd q idx) := by
  rcases Nat.lt_or_ge idx q.length with hlt | hge
  · have hmem : q.getD idx (fv 0) ∈ q := by
      rw [List.getD_eq_getElem q (fv 0) hlt]
      exact List.getElem_mem hlt
    have := List.all_eq_true.mp h _ hmem
    exact (IsF_iff_isFinite _).mpr this
  · unfold rd
    rw [List.getD_eq_default _ _ hge]
    exact IsF_fv 0

/-- Bool test: the value is finite and nonnegative. -/
def isNonnegFin : FVal → Bool
  | FVal.fin q => decide (0 ≤ q)
  | _ => false

theorem isNonnegFin_spec (x : FVal) (h : isNonnegFin x = true) :
    ∃ q, x = FVal.fin q ∧ 0 ≤ q := by
  cases x <;> simp [isNonnegFin] at h ⊢
  exact h

theorem sqrt_eps_ne (x : ℚ) : ratSqrt x + (0.000000001 : ℚ) ≠ 0 := by
  have h1 := ratSqrt_nonneg x
  have h4 : (0 : ℚ) < ratSqrt x + 0.000000001 := by linarith [h1]
  exact ne_of_gt h4

theorem one_plus_sqrt_pos (x : ℚ) : (0 : ℚ) < 1 + 10 * ratSqrt x := by
  have h1 := ratSqrt_nonneg x
  linarith

theorem fin_logF_pos (a : ℚ) (h : 0 < a) :
    FVal.logF (FVal.fin a) = FVal.fin (ratLog a) := by
  show (if 0 < a then FVal.fin (ratLog a)
      else if a = 0 then FVal.ninf else FVal.nan) = FVal.fin (ratLog a)
  rw [if_pos h]

theorem sumsq_nonneg (a b : ℚ) : (0 : ℚ) ≤ a * a + b * b :=
  add_nonneg (mul_self_nonneg a) (mul_self_nonneg b)

/-- Per-cell finiteness of the scalar view in the five modes whose
density divisions are guarded (every mode except `temperature`). -/
theorem gsCell_fin (s : Solver) (mode : String) (i : Nat)
    (hmode : mode ∈ ["density", "pressure", "velocity", "mach", "schlieren"])
    (hQ : ∀ idx, IsF (rd s.Q idx))
    (hrho : ∃ qr, rd s.Q (i * 4) = FVal.fin qr ∧ 0 ≤ qr)
    (hdx : ∃ qd, s.dx = FVal.fin qd ∧ qd ≠ 0)
    (hdy : ∃ qe, s.dy = FVal.fin qe ∧ qe ≠ 0) :
    IsF (gsCell s mode i) := by
  obtain ⟨qr, hqr, hqr0⟩ := hrho
  obtain ⟨qm1, hm1⟩ := hQ (i * 4 + 1)
  obtain ⟨qm2, hm2⟩ := hQ (i * 4 + 2)
  obtain ⟨qe3, he3⟩ := hQ (i * 4 + 3)
  obtain ⟨pq, hp, hp10⟩ := getPressure_fin (rd s.Q (i * 4)) (rd s.Q (i * 4 + 1))
    (rd s.Q (i * 4 + 2)) (rd s.Q (i * 4 + 3)) ⟨qr, hqr⟩ ⟨qm1, hm1⟩ ⟨qm2, hm2⟩ ⟨qe3, he3⟩
  have hden : qr + (0.000000001 : ℚ) ≠ 0 := ne_of_gt (by linarith)
  simp only [List.mem_cons, List.not_mem_nil, or_false] at hmode
  rcases hmode with hm | hm | hm | hm | hm
  all_goals subst hm
  · -- density
    simp only [gsCell, String.reduceEq, reduceIte]
    exact ⟨qr, hqr⟩
  · -- pressure
    simp only [gsCell, String.reduceEq, reduceIte]
    exact ⟨pq, hp⟩
  · -- velocity
    simp only [gsCell, String.reduceEq, reduceIte]
    rw [hqr, hm1, hm2]
    simp (disch := first | exact hden | exact sumsq_nonneg _ _) only
      [FVal.fv, fin_add, fin_div, fin_mul, fin_sqrtF]
    exact ⟨_, rfl⟩
  · -- mach
    simp only [gsCell, String.reduceEq, reduceIte]
    rw [hp, hqr, hm1, hm2]
    have h1 : (0 : ℚ) ≤ pq := by linarith
    have h2 : (0 : ℚ) < qr + 0.000000001 := by linarith
    have hmarg : (0 : ℚ) ≤ 1.4 * pq / (qr + 0.000000001) :=
      div_nonneg (mul_nonneg (by norm_num) h1) (le_of_lt h2)
    simp (disch := first
        | exact hden
        | exact hmarg
        | exact sqrt_eps_ne _
        | exact sumsq_nonneg _ _) only
      [FVal.fv, GAMMA, fin_add, fin_div, fin_mul, fin_sqrtF]
    exact ⟨_, rfl⟩
  · -- schlieren
    obtain ⟨qd, hqd, hqd0⟩ := hdx
    obtain ⟨qe, hqe, hqe0⟩ := hdy
    obtain ⟨qa, ha⟩ := hQ (i * 4 + 4)
    obtain ⟨qb, hb⟩ := hQ (i * 4 - 4)
    obtain ⟨qc, hc⟩ := hQ (((i / s.nx + 1) * s.nx + i % s.nx) * 4)
    obtain ⟨qf, hf⟩ := hQ (((i / s.nx - 1) * s.nx + i % s.nx) * 4)
    have h2d : (2 : ℚ) * qd ≠ 0 := by
      intro hcon
      exact hqd0 (by linarith)
    have h2e : (2 : ℚ) * qe ≠ 0 := by
      intro hcon
      exact hqe0 (by linarith)
    simp only [gsCell, String.reduceEq, reduceIte]
    rw [hqd, hqe, ha, hb, hc, hf]
    simp (disch := first
        | exact h2d
        | exact h2e
        | exact sumsq_nonneg _ _) only
      [FVal.fv, fin_add, fin_sub, fin_div, fin_mul, fin_sqrtF, ite_fin]
    rw [fin_logF_pos _ (one_plus_sqrt_pos _)]
    exact ⟨_, rfl⟩

/-- Claim C6 (amended): in `scalar_field`, the velocity and Mach
divisions by density use the guarded denominator `rho + 1e-9`, and for
every `Q` with finite components and nonnegative densities the modes
density, pressure, velocity, mach and schlieren produce no NaN and no
infinite entry, even at cells with `rho = 0`.  The temperature mode is
the exception: it divides by `rho * R` unguarded (see the
counterexample producing +Infinity at a zero-density cell). -/
theorem spec_C6 (s : Solver) (mode : String) (v : FVal)
    (hmode : mode ∈ ["density", "pressure", "velocity", "mach", "schlieren"])
    (hfin : s.Q.all FVal.isFinite = true)
    (hdens : (List.range (s.nx * s.ny)).all
      (fun i => isNonnegFin (rd s.Q (i * 4))) = true)
    (hdx : s.dx.isFinite = true ∧ s.dx ≠ fv 0)
    (hdy : s.dy.isFinite = true ∧ s.dy ≠ fv 0)
    (hv : v ∈ (getScalarField s mode).1) :
    v.isFinite = true := by
  have hdata : (getScalarField s mode).1
      = (List.range (s.nx * s.ny)).map (gsCell s mode) := by
    unfold getScalarField
    rw [gs_fold_data]
    simp
  rw [hdata] at hv
  obtain ⟨i, hi, rfl⟩ := List.mem_map.mp hv
  have hiN : i < s.nx * s.ny := List.mem_range.mp hi
  have hrho : ∃ qr, rd s.Q (i * 4) = FVal.fin qr ∧ 0 ≤ qr := by
    have := List.all_eq_true.mp hdens i (List.mem_range.mpr hiN)
    exact isNonnegFin_spec _ this
  have hdx2 : ∃ qd, s.dx = FVal.fin qd ∧ qd ≠ 0 := by
    obtain ⟨q1, hq1⟩ := (IsF_iff_isFinite s.dx).mpr hdx.1
    exact ⟨q1, hq1, fun hc => hdx.2 (by rw [hq1, hc]; rfl)⟩
  have hdy2 : ∃ qe, s.dy = FVal.fin qe ∧ qe ≠ 0 := by
    obtain ⟨q1, hq1⟩ := (IsF_iff_isFinite s.dy).mpr hdy.1
    exact ⟨q1, hq1, fun hc => hdy.2 (by rw [hq1, hc]; rfl)⟩
  exact (IsF_iff_isFinite _).mp
    (gsCell_fin s mode i hmode (all_isFinite_rd s.Q hfin) hrho hdx2 hdy2)

/-- A one-cell solver whose only cell has zero density and finite
components. -/
def sC6 : Solver := { construct 1 1 with Q := [fv 0, fv 0, fv 0, fv 2.5] }

/-- Claim C6 (witness): on the zero-density one-cell solver, the
velocity mode (guarded division) produces a finite value. -/
theorem spec_C6_witness :
    (("velocity" : String) ∈ ["density", "pressure", "velocity", "mach", "schlieren"] ∧
        sC6.Q.all FVal.isFinite = true ∧
        sC6.dx.isFinite = true ∧ sC6.dx ≠ fv 0 ∧
        fv 0 ∈ (getScalarField sC6 "velocity").1) ∧
      (fv 0).isFinite = true :=
  ⟨⟨by decide, by with_unfolding_all decide, by with_unfolding_all decide,
      by with_unfolding_all decide, by with_unfolding_all decide⟩,
    spec_C6 sC6 "velocity" (fv 0) (by decide) (by with_unfolding_all decide)
      (by with_unfolding_all decide)
      ⟨by with_unfolding_all decide, by with_unfolding_all decide⟩
      ⟨by with_unfolding_all decide, by with_unfolding_all decide⟩
      (by with_unfolding_all decide)⟩

/-- Claim C6 (counterexample): the temperature mode divides by
`rho * R` WITHOUT the `1e-9` guard; at a zero-density cell with all
components finite it produces +Infinity, refuting the claim that every
division by density is guarded and that no supported mode can return a
non-finite entry. -/
theorem spec_C6_counterexample :
    sC6.Q.all FVal.isFinite = true ∧ rd sC6.Q 0 = fv 0 ∧
      (getScalarField sC6 "temperature").1.getD 0 (fv 0) = FVal.inf := by
  refine ⟨?_, ?_, ?_⟩ <;> with_unfolding_all decide

/-! ## Claim C2 -/

theorem isFinite_fin (a : ℚ) : (FVal.fin a).isFinite = true := rfl

theorem rd_wr_or (q : List FVal) (i k : Nat) (v : FVal) :
    rd (wr q i v) k = v ∨ rd (wr q i v) k = rd q k := by
  by_cases h : i = k
  · subst h
    by_cases hl : i < q.length
    · exact Or.inl (rd_wr_eq q i v hl)
    · right
      unfold rd wr
      rw [List.getD_eq_default _ _ (by rw [List.length_set]; exact le_of_not_lt hl),
        List.getD_eq_default _ _ (le_of_not_lt hl)]
  · exact Or.inr (rd_wr_ne q i k v h)

theorem wr_IsF (q : List FVal) (i : Nat) (v : FVal)
    (hq : ∀ k, IsF (rd q k)) (hv : IsF v) (k : Nat) : IsF (rd (wr q i v) k) := by
  rcases rd_wr_or q i k v with h | h
  · rw [h]
    exact hv
  · rw [h]
    exact hq k

theorem wr_chain_IsF (q : List FVal) (i : Nat) (f : FVal → FVal)
    (hq : ∀ k, IsF (rd q k)) (hf : ∀ x, IsF x → IsF (f x)) (k : Nat) :
    IsF (rd (wr q i (f (rd q i))) k) :=
  wr_IsF q i _ hq (hf _ (hq i)) k

theorem foldl_len {α : Type} (f : List FVal → α → List FVal)
    (hf : ∀ q x, (f q x).length = q.length) :
    ∀ (l : List α) (q : List FVal), (l.foldl f q).length = q.length
  | [], _ => rfl
  | x :: l, q => by
    rw [List.foldl_cons, foldl_len f hf l (f q x), hf]

theorem foldl_pred {α : Type} (P : List FVal → Prop) (f : List FVal → α → List FVal)
    (hf : ∀ q x, P q → P (f q x)) :
    ∀ (l : List α) (q : List FVal), P q → P (l.foldl f q)
  | [], _, h => h
  | x :: l, q, h => by
    rw [List.foldl_cons]
    exact foldl_pred P f hf l (f q x) (hf q x h)

theorem faceUpdate_length (Q qn : List FVal) (idxL idxR : Nat) (nxv nyv rdth : FVal) :
    (faceUpdate Q qn idxL idxR nxv nyv rdth).length = qn.length := by
  simp [faceUpdate, wr_length]

/-- A face update keeps every entry of the accumulator finite: the flux
is finite by `roeFlux_fin` and each of the eight writes adds or
subtracts `(dt/h) * flux` from a finite entry. -/
theorem faceUpdate_fin (Q qn : List FVal) (idxL idxR : Nat) (qnx qny : ℚ) (rdth : FVal)
    (hQ : ∀ k, IsF (rd Q k)) (hr : IsF rdth) (hqn : ∀ k, IsF (rd qn k)) :
    ∀ k, IsF (rd (faceUpdate Q qn idxL idxR (fv qnx) (fv qny) rdth) k) := by
  obtain ⟨rL0, h0⟩ := hQ idxL
  obtain ⟨mxL, h1⟩ := hQ (idxL + 1)
  obtain ⟨myL, h2⟩ := hQ (idxL + 2)
  obtain ⟨eL, h3⟩ := hQ (idxL + 3)
  obtain ⟨rR0, h4⟩ := hQ idxR
  obtain ⟨mxR, h5⟩ := hQ (idxR + 1)
  obtain ⟨myR, h6⟩ := hQ (idxR + 2)
  obtain ⟨eR, h7⟩ := hQ (idxR + 3)
  obtain ⟨a, b, c, d, hflux⟩ := roeFlux_fin Q idxL idxR qnx qny rL0 mxL myL eL
    rR0 mxR myR eR h0 h1 h2 h3 h4 h5 h6 h7
  have e0 : rd [FVal.fin a, FVal.fin b, FVal.fin c, FVal.fin d] 0 = FVal.fin a := rfl
  have e1 : rd [FVal.fin a, FVal.fin b, FVal.fin c, FVal.fin d] 1 = FVal.fin b := rfl
  have e2 : rd [FVal.fin a, FVal.fin b, FVal.fin c, FVal.fin d] 2 = FVal.fin c := rfl
  have e3 : rd [FVal.fin a, FVal.fin b, FVal.fin c, FVal.fin d] 3 = FVal.fin d := rfl
  intro k
  simp only [faceUpdate]
  rw [hflux]
  simp only [e0, e1, e2, e3]
  refine wr_chain_IsF _ _ (fun x => x + rdth * FVal.fin d) (fun k => ?_)
    (fun x hx => hx.addF (hr.mulF (IsF_fin d))) k
  refine wr_chain_IsF _ _ (fun x => x + rdth * FVal.fin c) (fun k => ?_)
    (fun x hx => hx.addF (hr.mulF (IsF_fin c))) k
  refine wr_chain_IsF _ _ (fun x => x + rdth * FVal.fin b) (fun k => ?_)
    (fun x hx => hx.addF (hr.mulF (IsF_fin b))) k
  refine wr_chain_IsF _ _ (fun x => x + rdth * FVal.fin a) (fun k => ?_)
    (fun x hx => hx.addF (hr.mulF (IsF_fin a))) k
  refine wr_chain_IsF _ _ (fun x => x - rdth * FVal.fin d) (fun k => ?_)
    (fun x hx => hx.subF (hr.mulF (IsF_fin d))) k
  refine wr_chain_IsF _ _ (fun x => x - rdth * FVal.fin c) (fun k => ?_)
    (fun x hx => hx.subF (hr.mulF (IsF_fin c))) k
  refine wr_chain_IsF _ _ (fun x => x - rdth * FVal.fin b) (fun k => ?_)
    (fun x hx => hx.subF (hr.mulF (IsF_fin b))) k
  exact wr_chain_IsF _ _ (fun x => x - rdth * FVal.fin a) hqn
    (fun x hx => hx.subF (hr.mulF (IsF_fin a))) k

theorem sweep_fold_fin (Q : List FVal) (qnx qny : ℚ) (rdth : FVal)
    (hQ : ∀ k, IsF (rd Q k)) (hr : IsF rdth) :
    ∀ (faces : List (Nat × Nat)) (qn : List FVal), (∀ k, IsF (rd qn k)) →
      ∀ k, IsF (rd (faces.foldl
        (fun q pr => faceUpdate Q q pr.1 pr.2 (fv qnx) (fv qny) rdth) qn) k)
  | [], _, hqn, k => hqn k
  | pr :: faces, qn, hqn, k => by
    rw [List.foldl_cons]
    exact sweep_fold_fin Q qnx qny rdth hQ hr faces _
      (faceUpdate_fin Q qn pr.1 pr.2 qnx qny rdth hQ hr hqn) k

/-- The running-maximum fold of `calculateTimeStep` stays finite on a
finite `Q`. -/
theorem calc_fold_fin (Q : List FVal) (hQ : ∀ k, IsF (rd Q k)) :
    ∀ (l : List Nat) (ms : FVal), IsF ms →
      IsF (l.foldl (fun ms i =>
        let idx := i * 4
        let r := FVal.fmax (fv 0.000001) (rd Q idx)
        let invR := fv 1 / r
        let u := rd Q (idx + 1) * invR
        let v := rd Q (idx + 2) * invR
        let p := getPressure r (rd Q (idx + 1)) (rd Q (idx + 2)) (rd Q (idx + 3))
        let c := FVal.sqrtF (GAMMA * p * invR)
        let speed := FVal.sqrtF (u * u + v * v) + c
        if FVal.jgt speed ms then speed else ms) ms)
  | [], _, hms => hms
  | i :: l, ms, hms => by
    rw [List.foldl_cons]
    refine calc_fold_fin Q hQ l _ ?_
    obtain ⟨m, rfl⟩ := hms
    obtain ⟨rq, hrd⟩ := hQ (i * 4)
    obtain ⟨m1, h1⟩ := hQ (i * 4 + 1)
    obtain ⟨m2, h2⟩ := hQ (i * 4 + 2)
    obtain ⟨e3, h3⟩ := hQ (i * 4 + 3)
    obtain ⟨pq, hp, hp10⟩ := getPressure_fin (FVal.fmax (fv 0.000001) (rd Q (i * 4)))
      (rd Q (i * 4 + 1)) (rd Q (i * 4 + 2)) (rd Q (i * 4 + 3))
      ⟨max 0.000001 rq, by rw [hrd]; exact fin_fmax _ _⟩ ⟨m1, h1⟩ ⟨m2, h2⟩ ⟨e3, h3⟩
    have hinv : (max (0.000001 : ℚ) rq) ≠ 0 := max1e6_ne rq
    have hcarg : (0 : ℚ) ≤ 1.4 * pq * (1 / max 0.000001 rq) :=
      mul_nonneg (mul_nonneg (by norm_num) (by linarith))
        (div_nonneg zero_le_one (max1e6_nonneg rq))
    simp only []
    rw [hp, hrd, h1, h2]
    simp (disch := first
        | exact hinv
        | exact hcarg
        | exact sumsq_nonneg _ _) only
      [FVal.fv, GAMMA, fin_fmax, fin_div, fin_mul, fin_add, fin_sqrtF, ite_fin]
    exact ⟨_, rfl⟩

/-- `calculateTimeStep` yields a finite dt whenever `Q`, `cfl`, `dx`
and `dy` are finite: the divisor is clamped at `10` from below. -/
theorem calculateTimeStep_fin (s : Solver) (cfl : FVal)
    (hQ : ∀ k, IsF (rd s.Q k)) (hcfl : IsF cfl) (hdx : IsF s.dx) (hdy : IsF s.dy) :
    IsF (calculateTimeStep s cfl) := by
  obtain ⟨qc, hqc⟩ := hcfl
  obtain ⟨qd, hqd⟩ := hdx
  obtain ⟨qe, hqe⟩ := hdy
  obtain ⟨msv, hms⟩ := calc_fold_fin s.Q hQ (List.range (s.nx * s.ny)) (fv 0) (IsF_fv 0)
  have hne : max (10 : ℚ) msv ≠ 0 := ne_of_gt (lt_of_lt_of_le (by norm_num) (le_max_left _ _))
  simp only [calculateTimeStep]
  rw [hms, hqc, hqd, hqe]
  simp (disch := exact hne) only [FVal.fv, fin_fmax, fin_fmin, fin_mul, fin_div]
  exact ⟨_, rfl⟩

theorem P_wr_fin (q : List FVal) (i : Nat) (v : FVal)
    (hq : ∀ k, k % 4 ≠ 3 → IsF (rd q k)) (hv : IsF v) :
    ∀ k, k % 4 ≠ 3 → IsF (rd (wr q i v) k) := by
  intro k hk
  rcases rd_wr_or q i k v with h | h
  · rw [h]
    exact hv
  · rw [h]
    exact hq k hk

theorem P_wr_E (q : List FVal) (i : Nat) (v : FVal) (hi : i % 4 = 3)
    (hq : ∀ k, k % 4 ≠ 3 → IsF (rd q k)) :
    ∀ k, k % 4 ≠ 3 → IsF (rd (wr q i v) k) := by
  intro k hk
  rw [rd_wr_ne q i k v (by omega)]
  exact hq k hk

/-- The inlet/slip-wall row writes keep every non-energy slot finite:
the energy slot may receive the unguarded `my/rho` kinetic term, but
densities and momenta are the inlet products, zeros, or copies. -/
theorem inletCell_P (s : Solver) (cY rad : Nat) (q : List FVal) (j : Nat)
    (hin1 : IsF s.inletState.rho) (hin2 : IsF s.inletState.u) (hin3 : IsF s.inletState.v)
    (hq : ∀ k, k % 4 ≠ 3 → IsF (rd q k)) :
    ∀ k, k % 4 ≠ 3 → IsF (rd (inletCell s cY rad q j) k) := by
  simp only [inletCell]
  by_cases hap : ((j : Int) - (cY : Int)).natAbs ≤ rad
  · rw [if_pos hap]
    have g1 := P_wr_fin q ((j * s.nx) * 4) s.inletState.rho hq hin1
    have g2 := P_wr_fin _ ((j * s.nx) * 4 + 1) (s.inletState.rho * s.inletState.u)
      g1 (hin1.mulF hin2)
    have g3 := P_wr_fin _ ((j * s.nx) * 4 + 2) (s.inletState.rho * s.inletState.v)
      g2 (hin1.mulF hin3)
    exact P_wr_E _ ((j * s.nx) * 4 + 3) s.inletState.E (by omega) g3
  · rw [if_neg hap]
    have g1 := P_wr_fin q ((j * s.nx) * 4) (rd q ((j * s.nx) * 4 + 4)) hq
      (hq _ (by omega))
    have g2 := P_wr_fin _ ((j * s.nx) * 4 + 1) (fv 0) g1 (IsF_fv 0)
    have g3 := P_wr_fin _ ((j * s.nx) * 4 + 2) _ g2 (g2 ((j * s.nx) * 4 + 4 + 2) (by omega))
    exact P_wr_E _ ((j * s.nx) * 4 + 3) _ (by omega) g3

theorem outletCell_P (s : Solver) (q : List FVal) (j : Nat)
    (hq : ∀ k, k % 4 ≠ 3 → IsF (rd q k)) :
    ∀ k, k % 4 ≠ 3 → IsF (rd (outletCell s q j) k) := by
  simp only [outletCell]
  have g1 := P_wr_fin q ((j * s.nx + s.nx - 1) * 4) (rd q ((j * s.nx + s.nx - 2) * 4)) hq
    (hq _ (by omega))
  have g2 := P_wr_fin _ ((j * s.nx + s.nx - 1) * 4 + 1) _ g1
    (g1 ((j * s.nx + s.nx - 2) * 4 + 1) (by omega))
  have g3 := P_wr_fin _ ((j * s.nx + s.nx - 1) * 4 + 2) _ g2
    (g2 ((j * s.nx + s.nx - 2) * 4 + 2) (by omega))
  exact P_wr_E _ ((j * s.nx + s.nx - 1) * 4 + 3) _ (by omega) g3

theorem farFieldCell_P (s : Solver) (q : List FVal) (i : Nat)
    (hamb : IsF s.ambientState.rho)
    (hq : ∀ k, k % 4 ≠ 3 → IsF (rd q k)) :
    ∀ k, k % 4 ≠ 3 → IsF (rd (farFieldCell s q i) k) := by
  simp only [farFieldCell]
  have g1 := P_wr_fin q (i * 4) s.ambientState.rho hq hamb
  have g2 := P_wr_fin _ (i * 4 + 1) (fv 0) g1 (IsF_fv 0)
  have g3 := P_wr_fin _ (i * 4 + 2) (fv 0) g2 (IsF_fv 0)
  have g4 := P_wr_E _ (i * 4 + 3) s.ambientState.E (by omega) g3
  have g5 := P_wr_fin _ (((s.ny - 1) * s.nx + i) * 4) s.ambientState.rho g4 hamb
  have g6 := P_wr_fin _ (((s.ny - 1) * s.nx + i) * 4 + 1) (fv 0) g5 (IsF_fv 0)
  have g7 := P_wr_fin _ (((s.ny - 1) * s.nx + i) * 4 + 2) (fv 0) g6 (IsF_fv 0)
  exact P_wr_E _ (((s.ny - 1) * s.nx + i) * 4 + 3) s.ambientState.E (by omega) g7

/-- The boundary imprint keeps every non-energy slot of `Q_new` finite
and preserves its length. -/
theorem applyBC_facts (s : Solver)
    (hin1 : IsF s.inletState.rho) (hin2 : IsF s.inletState.u) (hin3 : IsF s.inletState.v)
    (hamb : IsF s.ambientState.rho)
    (hq : ∀ k, IsF (rd s.Qnew k)) :
    (applyBoundaryConditions s).Qnew.length = s.Qnew.length ∧
    ∀ k, k % 4 ≠ 3 → IsF (rd (applyBoundaryConditions s).Qnew k) := by
  have key : (applyBoundaryConditions s).Qnew =
      (List.range s.nx).foldl (farFieldCell s)
        ((List.range s.ny).foldl (outletCell s)
          ((List.range s.ny).foldl (inletCell s (s.ny / 2) (s.ny / 8)) s.Qnew)) := rfl
  rw [key]
  constructor
  · rw [farFold_length, outletFold_length, inletFold_length]
  · refine foldl_pred (fun q => ∀ k, k % 4 ≠ 3 → IsF (rd q k)) _
      (fun q i h => farFieldCell_P s q i hamb h) _ _ ?_
    refine foldl_pred _ _ (fun q j h => outletCell_P s q j h) _ _ ?_
    exact foldl_pred _ _
      (fun q j h => inletCell_P s (s.ny / 2) (s.ny / 8) q j hin1 hin2 hin3 h)
      _ _ (fun k _ => hq k)

theorem sweep_fold_len (Q : List FVal) (nxv nyv rdth : FVal) :
    ∀ (faces : List (Nat × Nat)) (qn : List FVal),
      (faces.foldl (fun q pr => faceUpdate Q q pr.1 pr.2 nxv nyv rdth) qn).length
        = qn.length
  | [], _ => rfl
  | pr :: faces, qn => by
    rw [List.foldl_cons, sweep_fold_len Q nxv nyv rdth faces _, faceUpdate_length]

/-- The X sweep seeds the accumulator from `Q` and keeps every entry
finite. -/
theorem computeFluxesX_fin (s : Solver) (dt h : FVal) (dirY : Nat)
    (hQ : ∀ k, IsF (rd s.Q k)) (hrdth : IsF (dt / h)) :
    (computeFluxes s dt h 1 dirY).Qnew.length = s.Q.length ∧
    ∀ k, IsF (rd (computeFluxes s dt h 1 dirY).Qnew k) := by
  have key : (computeFluxes s dt h 1 dirY).Qnew =
      (sweepFaces s.nx (if (1 : Nat) = 1 then s.ny else s.nx)
          (if (1 : Nat) = 1 then s.nx else s.ny) (decide ((1 : Nat) = 1))).foldl
        (fun q pr => faceUpdate s.Q q pr.1 pr.2 (fv (((1 : Nat) : ℚ))) (fv ((dirY : ℚ)))
          (dt / h)) (if (1 : Nat) = 1 then s.Q else s.Qnew) := rfl
  have hqn0 : ∀ k, IsF (rd (if (1 : Nat) = 1 then s.Q else s.Qnew) k) := by
    rw [if_pos rfl]
    exact hQ
  rw [key]
  constructor
  · rw [sweep_fold_len, if_pos rfl]
  · exact sweep_fold_fin s.Q _ _ _ hQ hrdth _ _ hqn0

/-- The Y sweep accumulates into the existing `Q_new` and keeps every
entry finite. -/
theorem computeFluxesY_fin (s : Solver) (dt h : FVal) (dirY : Nat)
    (hQ : ∀ k, IsF (rd s.Q k)) (hrdth : IsF (dt / h))
    (hqn : ∀ k, IsF (rd s.Qnew k)) :
    (computeFluxes s dt h 0 dirY).Qnew.length = s.Qnew.length ∧
    ∀ k, IsF (rd (computeFluxes s dt h 0 dirY).Qnew k) := by
  have key : (computeFluxes s dt h 0 dirY).Qnew =
      (sweepFaces s.nx (if (0 : Nat) = 1 then s.ny else s.nx)
          (if (0 : Nat) = 1 then s.nx else s.ny) (decide ((0 : Nat) = 1))).foldl
        (fun q pr => faceUpdate s.Q q pr.1 pr.2 (fv (((0 : Nat) : ℚ))) (fv ((dirY : ℚ)))
          (dt / h)) (if (0 : Nat) = 1 then s.Q else s.Qnew) := rfl
  have hqn0 : ∀ k, IsF (rd (if (0 : Nat) = 1 then s.Q else s.Qnew) k) := by
    rw [if_neg (by omega)]
    exact hqn
  rw [key]
  constructor
  · rw [sweep_fold_len, if_neg (show ¬((0 : Nat) = 1) by omega)]
  · exact sweep_fold_fin s.Q _ _ _ hQ hrdth _ _ hqn0

/-- The per-cell invariant established by the repair loop: all four
conservative components finite, density at least `0.05`, and the
pressure recomputed as in the source at least `100`. -/
def goodCell (q : List FVal) (i : Nat) : Prop :=
  ∃ r mx my e : ℚ,
    rd q (i * 4) = FVal.fin r ∧ rd q (i * 4 + 1) = FVal.fin mx ∧
    rd q (i * 4 + 2) = FVal.fin my ∧ rd q (i * 4 + 3) = FVal.fin e ∧
    0.05 ≤ r ∧
    100 ≤ (1.4 - 1) * (e - 0.5 * r * (mx / r * (mx / r) + my / r * (my / r)))

theorem guard_fin (a : ℚ) :
    ((FVal.fin a).isNaN || !(FVal.fin a).isFinite) = false := rfl

theorem pressure_reset (K : ℚ) :
    (1.4 - 1) * (100 / (1.4 - 1) + K - K) = 100 := by norm_num

theorem wrF_or (q : List FVal) (j : Nat) (x : ℚ) :
    ∀ k, rd (wr q j (FVal.fin x)) k = rd q k ∨ IsF (rd (wr q j (FVal.fin x)) k) := by
  intro k
  rcases rd_wr_or q j k (FVal.fin x) with h | h
  · right
    rw [h]
    exact IsF_fin x
  · left
    exact h

theorem or_trans_wr (q q1 q2 : List FVal)
    (h1 : ∀ k, rd q1 k = rd q k ∨ IsF (rd q1 k))
    (h2 : ∀ k, rd q2 k = rd q1 k ∨ IsF (rd q2 k)) :
    ∀ k, rd q2 k = rd q k ∨ IsF (rd q2 k) := by
  intro k
  rcases h2 k with h | h
  · rcases h1 k with h' | h'
    · left
      rw [h, h']
    · right
      rw [h]
      exact h'
  · right
    exact h

/-- One iteration of the repair loop on a cell with finite density and
momenta: either the loop aborts, or it proceeds on a buffer in which
this cell satisfies the invariant, only this cell's four slots were
touched, and every touched slot received a finite value. -/
theorem fixStep (i : Nat) (rest : List Nat) (q : List FVal)
    (hrf : IsF (rd q (i * 4))) (hmf : IsF (rd q (i * 4 + 1)))
    (hnf : IsF (rd q (i * 4 + 2))) (hlen : i * 4 + 3 < q.length) :
    (fixCellsLoop (i :: rest) q).1 = false ∨
    ∃ q1, fixCellsLoop (i :: rest) q = fixCellsLoop rest q1 ∧
      q1.length = q.length ∧ goodCell q1 i ∧
      (∀ k, k < i * 4 ∨ i * 4 + 3 < k → rd q1 k = rd q k) ∧
      (∀ k, rd q1 k = rd q k ∨ IsF (rd q1 k)) := by
  obtain ⟨rq, hr⟩ := hrf
  obtain ⟨mq, hm⟩ := hmf
  obtain ⟨nq, hn⟩ := hnf
  rcases he : rd q (i * 4 + 3) with eq2 | _ | _ | _
  case ninf =>
    left
    simp only [fixCellsLoop]
    rw [hr, he]
    rfl
  case inf =>
    left
    simp only [fixCellsLoop]
    rw [hr, he]
    rfl
  case nan =>
    left
    simp only [fixCellsLoop]
    rw [hr, he]
    rfl
  case fin =>
  right
  rcases lt_or_le rq (0.05 : ℚ) with hlt | hge
  · -- density floor fires: the cell becomes (0.05, 0, 0, e)
    have hjlt : decide (rq < 0.05) = true := decide_eq_true hlt
    rcases lt_or_le ((1.4 - 1) *
        (eq2 - 0.5 * 0.05 * (0 / 0.05 * (0 / 0.05) + 0 / 0.05 * (0 / 0.05)))) 100 with
      hplt | hpge
    · -- pressure floor also fires
      have hjp : decide ((1.4 - 1) *
          (eq2 - 0.5 * 0.05 * (0 / 0.05 * (0 / 0.05) + 0 / 0.05 * (0 / 0.05))) < 100)
          = true := decide_eq_true hplt
      refine ⟨wr (wr (wr (wr q (i * 4) (FVal.fin 0.05)) (i * 4 + 1) (FVal.fin 0))
        (i * 4 + 2) (FVal.fin 0)) (i * 4 + 3)
        (FVal.fin (100 / (1.4 - 1) +
          0.5 * 0.05 * (0 / 0.05 * (0 / 0.05) + 0 / 0.05 * (0 / 0.05)))), ?_, ?_, ?_, ?_, ?_⟩
      · simp only [fixCellsLoop]
        simp (disch := first | (norm_num; done) | (simp only [wr_length]; omega) | omega) only
          [hr, hm, hn, he, FVal.fv, GAMMA, guard_fin, Bool.false_eq_true, eq_self_iff_true, if_false, if_true, isNaN_fin,
            isFinite_fin, Bool.not_true, Bool.false_or, Bool.or_self, fin_jlt,
            hjlt, hjp, fin_div, fin_mul, fin_add, fin_sub, rd_wr_eq, rd_wr_ne, wr_length]
      · simp only [wr_length]
      · refine ⟨0.05, 0, 0,
          100 / (1.4 - 1) + 0.5 * 0.05 * (0 / 0.05 * (0 / 0.05) + 0 / 0.05 * (0 / 0.05)),
          ?_, ?_, ?_, ?_, le_refl (0.05 : ℚ), ?_⟩
        · rw [rd_wr_ne _ _ _ _ (by omega), rd_wr_ne _ _ _ _ (by omega),
            rd_wr_ne _ _ _ _ (by omega)]
          exact rd_wr_eq _ _ _ (by omega)
        · rw [rd_wr_ne _ _ _ _ (by omega), rd_wr_ne _ _ _ _ (by omega)]
          exact rd_wr_eq _ _ _ (by rw [wr_length]; omega)
        · rw [rd_wr_ne _ _ _ _ (by omega)]
          exact rd_wr_eq _ _ _ (by rw [wr_length, wr_length]; omega)
        · exact rd_wr_eq _ _ _ (by rw [wr_length, wr_length, wr_length]; omega)
        · exact le_of_eq (pressure_reset _).symm
      · intro k hk
        rw [rd_wr_ne _ _ _ _ (by omega), rd_wr_ne _ _ _ _ (by omega),
          rd_wr_ne _ _ _ _ (by omega), rd_wr_ne _ _ _ _ (by omega)]
      · exact or_trans_wr _ _ _
          (or_trans_wr _ _ _
            (or_trans_wr _ _ _ (wrF_or q (i * 4) 0.05) (wrF_or _ (i * 4 + 1) 0))
            (wrF_or _ (i * 4 + 2) 0))
          (wrF_or _ (i * 4 + 3) _)
    · -- pressure already at least 100 after the floor
      have hjp : decide ((1.4 - 1) *
          (eq2 - 0.5 * 0.05 * (0 / 0.05 * (0 / 0.05) + 0 / 0.05 * (0 / 0.05))) < 100)
          = false := decide_eq_false_iff_not.mpr (not_lt.mpr hpge)
      refine ⟨wr (wr (wr q (i * 4) (FVal.fin 0.05)) (i * 4 + 1) (FVal.fin 0))
        (i * 4 + 2) (FVal.fin 0), ?_, ?_, ?_, ?_, ?_⟩
      · simp only [fixCellsLoop]
        simp (disch := first | (norm_num; done) | (simp only [wr_length]; omega) | omega) only
          [hr, hm, hn, he, FVal.fv, GAMMA, guard_fin, Bool.false_eq_true, eq_self_iff_true, if_false, if_true, isNaN_fin,
            isFinite_fin, Bool.not_true, Bool.false_or, Bool.or_self, fin_jlt,
            hjlt, hjp, fin_div, fin_mul, fin_add, fin_sub, rd_wr_eq, rd_wr_ne, wr_length]
      · simp only [wr_length]
      · refine ⟨0.05, 0, 0, eq2, ?_, ?_, ?_, ?_, le_refl (0.05 : ℚ), hpge⟩
        · rw [rd_wr_ne _ _ _ _ (by omega), rd_wr_ne _ _ _ _ (by omega)]
          exact rd_wr_eq _ _ _ (by omega)
        · rw [rd_wr_ne _ _ _ _ (by omega)]
          exact rd_wr_eq _ _ _ (by rw [wr_length]; omega)
        · exact rd_wr_eq _ _ _ (by rw [wr_length, wr_length]; omega)
        · rw [rd_wr_ne _ _ _ _ (by omega), rd_wr_ne _ _ _ _ (by omega),
            rd_wr_ne _ _ _ _ (by omega)]
          exact he
      · intro k hk
        rw [rd_wr_ne _ _ _ _ (by omega), rd_wr_ne _ _ _ _ (by omega),
          rd_wr_ne _ _ _ _ (by omega)]
      · exact or_trans_wr _ _ _
          (or_trans_wr _ _ _ (wrF_or q (i * 4) 0.05) (wrF_or _ (i * 4 + 1) 0))
          (wrF_or _ (i * 4 + 2) 0)
  · -- no density floor
    have hq0 : rq ≠ 0 := by
      intro h
      rw [h] at hge
      norm_num at hge
    have hjlt : decide (rq < 0.05) = false := decide_eq_false_iff_not.mpr (not_lt.mpr hge)
    rcases lt_or_le ((1.4 - 1) *
        (eq2 - 0.5 * rq * (mq / rq * (mq / rq) + nq / rq * (nq / rq)))) 100 with
      hplt | hpge
    · -- pressure floor fires, only the energy slot is rewritten
      have hjp : decide ((1.4 - 1) *
          (eq2 - 0.5 * rq * (mq / rq * (mq / rq) + nq / rq * (nq / rq))) < 100)
          = true := decide_eq_true hplt
      refine ⟨wr q (i * 4 + 3)
        (FVal.fin (100 / (1.4 - 1) +
          0.5 * rq * (mq / rq * (mq / rq) + nq / rq * (nq / rq)))), ?_, ?_, ?_, ?_, ?_⟩
      · simp only [fixCellsLoop]
        simp (disch := first | exact hq0 | (norm_num; done) | omega) only
          [hr, hm, hn, he, FVal.fv, GAMMA, guard_fin, Bool.false_eq_true, eq_self_iff_true, if_false, if_true, isNaN_fin,
            isFinite_fin, Bool.not_true, Bool.false_or, Bool.or_self, fin_jlt,
            hjlt, hjp, fin_div, fin_mul, fin_add, fin_sub]
      · simp only [wr_length]
      · refine ⟨rq, mq, nq, _, ?_, ?_, ?_, rd_wr_eq _ _ _ hlen, hge, ?_⟩
        · rw [rd_wr_ne _ _ _ _ (by omega)]
          exact hr
        · rw [rd_wr_ne _ _ _ _ (by omega)]
          exact hm
        · rw [rd_wr_ne _ _ _ _ (by omega)]
          exact hn
        · exact le_of_eq (pressure_reset _).symm
      · intro k hk
        rw [rd_wr_ne _ _ _ _ (by omega)]
      · exact wrF_or q (i * 4 + 3) _
    · -- nothing to repair
      have hjp : decide ((1.4 - 1) *
          (eq2 - 0.5 * rq * (mq / rq * (mq / rq) + nq / rq * (nq / rq))) < 100)
          = false := decide_eq_false_iff_not.mpr (not_lt.mpr hpge)
      refine ⟨q, ?_, rfl, ⟨rq, mq, nq, eq2, hr, hm, hn, he, hge, hpge⟩,
        fun k _ => rfl, fun k => Or.inl rfl⟩
      simp only [fixCellsLoop]
      simp (disch := first | exact hq0 | (norm_num; done) | omega) only
        [hr, hm, hn, he, FVal.fv, GAMMA, guard_fin, Bool.false_eq_true, eq_self_iff_true, if_false, if_true, isNaN_fin,
          isFinite_fin, Bool.not_true, Bool.false_or, Bool.or_self, fin_jlt,
          hjlt, hjp, fin_div, fin_mul, fin_add, fin_sub]

/-- The repair loop over pairwise-distinct cell indices: when it
reports stability, every scanned cell satisfies the invariant, lengths
are preserved, and untouched slots keep their values. -/
theorem fixLoop_main : ∀ (l : List Nat) (q : List FVal),
    (∀ k, k % 4 ≠ 3 → IsF (rd q k)) → (∀ j ∈ l, j * 4 + 3 < q.length) →
    l.Pairwise (fun a b => a ≠ b) → (fixCellsLoop l q).1 = true →
    ((fixCellsLoop l q).2.length = q.length ∧
      ∀ k, (∀ j ∈ l, k < j * 4 ∨ j * 4 + 3 < k) → rd (fixCellsLoop l q).2 k = rd q k) ∧
    ∀ i ∈ l, goodCell (fixCellsLoop l q).2 i
  | [], q, _, _, _, _ =>
    ⟨⟨rfl, fun _ _ => rfl⟩, fun i hi => absurd hi (List.not_mem_nil i)⟩
  | i :: rest, q, hP, hlen, hpw, htrue => by
    have hr3 : (i * 4) % 4 ≠ 3 := by omega
    have hm3 : (i * 4 + 1) % 4 ≠ 3 := by omega
    have hn3 : (i * 4 + 2) % 4 ≠ 3 := by omega
    rcases fixStep i rest q (hP _ hr3) (hP _ hm3) (hP _ hn3)
        (hlen i (List.mem_cons_self i rest)) with
      habort | ⟨q1, heq, hlen1, hgood, hframe, hor⟩
    · exact absurd (habort.symm.trans htrue) (by decide)
    · rw [heq] at htrue
      have hP1 : ∀ k, k % 4 ≠ 3 → IsF (rd q1 k) := by
        intro k hk
        rcases hor k with h | h
        · rw [h]
          exact hP k hk
        · exact h
      have hlen2 : ∀ j ∈ rest, j * 4 + 3 < q1.length := by
        intro j hj
        rw [hlen1]
        exact hlen j (List.mem_cons_of_mem i hj)
      rcases List.pairwise_cons.mp hpw with ⟨hsep, hpw2⟩
      obtain ⟨⟨hL, hF⟩, hG⟩ := fixLoop_main rest q1 hP1 hlen2 hpw2 htrue
      refine ⟨⟨?_, ?_⟩, ?_⟩
      · rw [heq, hL, hlen1]
      · intro k hk
        rw [heq, hF k (fun j hj => hk j (List.mem_cons_of_mem i hj)),
          hframe k (hk i (List.mem_cons_self i rest))]
      · intro j hj
        rcases List.mem_cons.mp hj with hji | hj2
        · subst hji
          obtain ⟨r, mx, my, e, g0, g1, g2, g3, gr, gp⟩ := hgood
          refine ⟨r, mx, my, e, ?_, ?_, ?_, ?_, gr, gp⟩
          · rw [heq, hF (j * 4) (fun j2 hj2b => by have := hsep j2 hj2b; omega)]
            exact g0
          · rw [heq, hF (j * 4 + 1) (fun j2 hj2b => by have := hsep j2 hj2b; omega)]
            exact g1
          · rw [heq, hF (j * 4 + 2) (fun j2 hj2b => by have := hsep j2 hj2b; omega)]
            exact g2
          · rw [heq, hF (j * 4 + 3) (fun j2 hj2b => by have := hsep j2 hj2b; omega)]
            exact g3
        · rw [heq]
          exact hG j hj2

/-- Claim C2: after a `step(cfl)` whose stability check passes, and
whose pre-state has finite `Q`, finite `cfl`, finite nonzero grid
spacings and finite cached inlet/ambient densities and velocities,
every cell of the committed `Q` has density at least `0.05`, all four
conservative components finite (no NaN, no infinity), and the pressure
recomputed from the committed components at least `100`. -/
theorem spec_C2 (s : Solver) (cfl : FVal) (i : Nat)
    (hQlen : s.Q.length = s.nx * s.ny * 4)
    (hQfin : s.Q.all FVal.isFinite = true)
    (hcfl : cfl.isFinite = true)
    (hdx : s.dx.isFinite = true ∧ s.dx ≠ fv 0)
    (hdy : s.dy.isFinite = true ∧ s.dy ≠ fv 0)
    (hinr : s.inletState.rho.isFinite = true)
    (hinu : s.inletState.u.isFinite = true)
    (hinv2 : s.inletState.v.isFinite = true)
    (hambr : s.ambientState.rho.isFinite = true)
    (hi : i < s.nx * s.ny)
    (hstable : stepStable s cfl = true) :
    ∃ r mx my e : ℚ,
      rd (step s cfl).Q (i * 4) = FVal.fin r ∧
      rd (step s cfl).Q (i * 4 + 1) = FVal.fin mx ∧
      rd (step s cfl).Q (i * 4 + 2) = FVal.fin my ∧
      rd (step s cfl).Q (i * 4 + 3) = FVal.fin e ∧
      0.05 ≤ r ∧
      100 ≤ (1.4 - 1) * (e - 0.5 * r * (mx / r * (mx / r) + my / r * (my / r))) := by
  have hQ : ∀ k, IsF (rd s.Q k) := all_isFinite_rd s.Q hQfin
  obtain ⟨qd, hqd⟩ := (IsF_iff_isFinite s.dx).mpr hdx.1
  have hd0 : qd ≠ 0 := fun hc => hdx.2 (by rw [hqd, hc]; rfl)
  obtain ⟨qe, hqe⟩ := (IsF_iff_isFinite s.dy).mpr hdy.1
  have he0 : qe ≠ 0 := fun hc => hdy.2 (by rw [hqe, hc]; rfl)
  obtain ⟨dq, hdq⟩ := calculateTimeStep_fin s cfl hQ ((IsF_iff_isFinite cfl).mpr hcfl)
    ⟨qd, hqd⟩ ⟨qe, hqe⟩
  obtain ⟨hX1, hX2⟩ := computeFluxesX_fin { s with t := s.t + calculateTimeStep s cfl }
    (calculateTimeStep s cfl) s.dx 0 hQ (IsF.divF qd ⟨dq, hdq⟩ hqd hd0)
  obtain ⟨hY1, hY2⟩ := computeFluxesY_fin
    (computeFluxes { s with t := s.t + calculateTimeStep s cfl }
      (calculateTimeStep s cfl) s.dx 1 0)
    (calculateTimeStep s cfl) s.dy 1 hQ (IsF.divF qe ⟨dq, hdq⟩ hqe he0) hX2
  obtain ⟨hB1, hB2⟩ := applyBC_facts
    (computeFluxes (computeFluxes { s with t := s.t + calculateTimeStep s cfl }
      (calculateTimeStep s cfl) s.dx 1 0) (calculateTimeStep s cfl) s.dy 0 1)
    ((IsF_iff_isFinite _).mpr hinr) ((IsF_iff_isFinite _).mpr hinu)
    ((IsF_iff_isFinite _).mpr hinv2) ((IsF_iff_isFinite _).mpr hambr) hY2
  have e1 : stepPipeline s cfl = applyBoundaryConditions
      (computeFluxes (computeFluxes { s with t := s.t + calculateTimeStep s cfl }
        (calculateTimeStep s cfl) s.dx 1 0) (calculateTimeStep s cfl) s.dy 0 1) := rfl
  have hPlen : (stepPipeline s cfl).Qnew.length = s.nx * s.ny * 4 := by
    rw [e1, hB1, hY1, hX1]
    exact hQlen
  have hPfin : ∀ k, k % 4 ≠ 3 → IsF (rd (stepPipeline s cfl).Qnew k) := by
    rw [e1]
    exact hB2
  have hstable2 : (fixCellsLoop (List.range (s.nx * s.ny))
      (stepPipeline s cfl).Qnew).1 = true := hstable
  obtain ⟨⟨hL2, hF2⟩, hG2⟩ := fixLoop_main (List.range (s.nx * s.ny))
    (stepPipeline s cfl).Qnew hPfin
    (fun j hj => by rw [hPlen]; have := List.mem_range.mp hj; omega)
    (List.nodup_range _) hstable2
  have hgood := hG2 i (List.mem_range.mpr hi)
  have e2 : (step s cfl).Q
      = (fixCellsLoop (List.range (s.nx * s.ny)) (stepPipeline s cfl).Qnew).2 := by
    simp only [step]
    rw [if_pos (show (fixPositivityAndCheckStability (stepPipeline s cfl)).1 = true
      from hstable)]
    rfl
  rw [e2]
  exact hgood

/-- A concrete 3-by-3 solver with uniform finite cells, used to
exercise a committed step. -/
def sC2 : Solver := { construct 3 3 with Q := qNine }

/-- Claim C2 (witness): a concrete committed step on a finite 3-by-3
state satisfies the density, pressure and finiteness guarantees at the
interior cell. -/
theorem spec_C2_witness :
    (sC2.Q.length = sC2.nx * sC2.ny * 4 ∧ sC2.Q.all FVal.isFinite = true ∧
      (fv 0.5).isFinite = true ∧
      (sC2.dx.isFinite = true ∧ sC2.dx ≠ fv 0) ∧
      (sC2.dy.isFinite = true ∧ sC2.dy ≠ fv 0) ∧
      sC2.inletState.rho.isFinite = true ∧ sC2.inletState.u.isFinite = true ∧
      sC2.inletState.v.isFinite = true ∧ sC2.ambientState.rho.isFinite = true ∧
      4 < sC2.nx * sC2.ny ∧ stepStable sC2 (fv 0.5) = true) ∧
    ∃ r mx my e : ℚ,
      rd (step sC2 (fv 0.5)).Q (4 * 4) = FVal.fin r ∧
      rd (step sC2 (fv 0.5)).Q (4 * 4 + 1) = FVal.fin mx ∧
      rd (step sC2 (fv 0.5)).Q (4 * 4 + 2) = FVal.fin my ∧
      rd (step sC2 (fv 0.5)).Q (4 * 4 + 3) = FVal.fin e ∧
      0.05 ≤ r ∧
      100 ≤ (1.4 - 1) * (e - 0.5 * r * (mx / r * (mx / r) + my / r * (my / r))) :=
  ⟨⟨by with_unfolding_all decide, by with_unfolding_all decide,
      by with_unfolding_all decide,
      ⟨by with_unfolding_all decide, by with_unfolding_all decide⟩,
      ⟨by with_unfolding_all decide, by with_unfolding_all decide⟩,
      by with_unfolding_all decide, by with_unfolding_all decide,
      by with_unfolding_all decide, by with_unfolding_all decide,
      by with_unfolding_all decide, by with_unfolding_all decide⟩,
    spec_C2 sC2 (fv 0.5) 4 (by with_unfolding_all decide) (by with_unfolding_all decide)
      (by with_unfolding_all decide)
      ⟨by with_unfolding_all decide, by with_unfolding_all decide⟩
      ⟨by with_unfolding_all decide, by with_unfolding_all decide⟩
      (by with_unfolding_all decide) (by with_unfolding_all decide)
      (by with_unfolding_all decide) (by with_unfolding_all decide)
      (by with_unfolding_all decide) (by with_unfolding_all decide)⟩
